import Mathlib

/-!
# sdfx-ui: the concurrent render-generation pipeline

A shallow embedding of `implcommon.go` (implCommonRender) and `drawsdf.go`
(drawSDF, rerenderOpt) and the properties proved about them.

Conventions of the embedding.
* Go `int` values that the code only uses as non-negative sizes, indices and
  counters are `Nat`; bytes are `Nat` below 256.
* `image.RGBA` is modelled with `Rect = image.Rect(0, 0, W, H)`, the only shape
  `rerenderOpt` ever allocates (`image.NewRGBA(image.Rect(0, 0, w, h))`).
* Goroutine scheduling is made explicit: what the scheduler decides (the order in
  which worker results arrive, when a context is seen as done, which task runs
  next) is an argument of the definition that depends on it.
-/

namespace SdfxUI

/-! ## Images (`image.RGBA`, `color.RGBA`) -/

/-- The type `color.RGBA`: four bytes, alpha 0 is fully transparent and 255 is opaque. -/
structure RGBA where
  R : Nat
  G : Nat
  B : Nat
  A : Nat
deriving DecidableEq, Repr

/-- The type `image.RGBA` with `Rect = (0,0)-(W,H)`: `Pix` holds the bytes, `Stride`
the distance in bytes between vertically adjacent pixels. -/
structure Image where
  Pix : List Nat
  Stride : Nat
  W : Nat
  H : Nat
deriving DecidableEq, Repr

/-- The constructor `image.NewRGBA(image.Rect(0, 0, w, h))`: a zeroed buffer of `4*w*h` bytes. -/
def NewRGBA (w h : Nat) : Image :=
  { Pix := List.replicate (4 * w * h) 0, Stride := 4 * w, W := w, H := h }

/-- The method `(*image.RGBA).PixOffset` for a rectangle whose minimum is the origin. -/
def Image.PixOffset (m : Image) (x y : Nat) : Nat :=
  y * m.Stride + x * 4

/-- The method `(*image.RGBA).SetRGBA`: a no-op outside the rectangle, otherwise the four
bytes at `PixOffset x y` become `R, G, B, A`. -/
def Image.SetRGBA (m : Image) (x y : Nat) (c : RGBA) : Image :=
  if x < m.W ∧ y < m.H then
    let i := m.PixOffset x y
    { m with Pix := (((m.Pix.set i c.R).set (i + 1) c.G).set (i + 2) c.B).set (i + 3) c.A }
  else m

/-! ## implCommonRender -/

/-- The locks the pipeline takes. -/
inductive LockId where
  | implStateLock
  | cachedRenderLock
  | renderingLock
  | implLock
deriving DecidableEq, Repr

/-- One lock operation of a goroutine, in program order. -/
inductive LockEv where
  | lock (l : LockId)
  | unlock (l : LockId)
  | rlock (l : LockId)
  | runlock (l : LockId)
deriving DecidableEq, Repr

/-- The errors a render can end with. `Canceled` is `context.Canceled`. -/
inductive RenderError where
  | Canceled
  | Other
deriving DecidableEq, Repr

/-- The loop `for i := 3; i < len(Pix); i += 4 { Pix[i] = 255 }` of implCommonRender,
with `fuel` bounding the number of iterations. -/
def initAlphaLoop : Nat → Nat → List Nat → List Nat
  | 0, _, pix => pix
  | fuel + 1, i, pix =>
    if i < pix.length then initAlphaLoop fuel (i + 4) (pix.set i 255) else pix

/-- The alpha pre-set at the start of implCommonRender (lines 28-32). The loop runs at most
`len(Pix)` times, which is the fuel given. -/
def initAlpha (m : Image) : Image :=
  { m with Pix := initAlphaLoop m.Pix.length 3 m.Pix }

/-- The step "update random pixels if needed" (lines 35-41). `perm` stands for
`rand.Perm` of the Go standard library. -/
def updatePixelsRand (perm : Nat → List Nat) (m : Image) (pixelsRand : List Nat) : List Nat :=
  let boundsSize : Nat × Nat := (m.W, m.H)
  let pixelCount := boundsSize.1 * boundsSize.2
  if pixelCount ≠ pixelsRand.length then perm pixelCount else pixelsRand

/-- The struct `jobInternal`. `V` is the type of `sdf.V2` values (a pair of floats) and `D`
the type of the scene's job data. -/
structure JobInternal (V D : Type) where
  pixel : Nat × Nat
  pixel01 : V
  data : D

/-- The struct `jobResult`. -/
structure JobResult where
  pixel : Nat × Nat
  color : RGBA
deriving DecidableEq, Repr

/-- The pixel sampled for index `randPixelIndex` (line 71). -/
def sampledPixel (boundsSize : Nat × Nat) (randPixelIndex : Nat) : Nat × Nat :=
  (randPixelIndex % boundsSize.1, randPixelIndex / boundsSize.1)

/-- The work generator (lines 67-85). `div01 p size` stands for the floating-point
`p.ToV2().Div(size.ToV2())`. `ctxDone k` says whether the `select` of iteration `k` takes
the `<-args.Ctx.Done()` branch; the result is the list of jobs pushed before the channel
is closed. -/
def jobGenerator {V D : Type} (div01 : Nat × Nat → Nat × Nat → V)
    (genJob : Nat × Nat → V → D) (boundsSize : Nat × Nat) (ctxDone : Nat → Bool) :
    Nat → List Nat → List (JobInternal V D)
  | _, [] => []
  | k, randPixelIndex :: rest =>
    let p := sampledPixel boundsSize randPixelIndex
    let p01 := div01 p boundsSize
    if ctxDone k then []
    else { pixel := p, pixel01 := p01, data := genJob p p01 } ::
      jobGenerator div01 genJob boundsSize ctxDone (k + 1) rest

/-- A worker's body (line 57): one result per job. -/
def worker {V D : Type} (processJob : Nat × Nat → V → D → JobResult)
    (job : JobInternal V D) : JobResult :=
  processJob job.pixel job.pixel01 job.data

/-- The constant `pixelBatch` (line 88). -/
def pixelBatch : Nat := 1000

/-- The state of the result collector (lines 87-118): the buffer, `pixelNum`, `err`, and a
record of what it did: its lock operations on `CachedRenderLock`, the pixel of every
`SetRGBA` call, and the value of `pixelNum` at every send on `PartialRenders`. -/
structure Collector where
  FullRender : Image
  pixelNum : Nat
  err : Option RenderError
  locks : List LockEv
  setCalls : List (Nat × Nat)
  sent : List Nat
deriving DecidableEq, Repr

/-- The loop `for renderedPixel := range jobResults` (lines 93-111). `ctxDone n` says whether
the context is seen done by the check made when `pixelNum = n`; `hasSink` is
`args.PartialRenders != nil`. On `break pixelLoop` the rest of the results is not read. -/
def collectorLoop (ctxDone : Nat → Bool) (hasSink : Bool) :
    Collector → List JobResult → Collector
  | s, [] => s
  | s, renderedPixel :: rest =>
    let s1 := { s with
      FullRender := s.FullRender.SetRGBA renderedPixel.pixel.1 renderedPixel.pixel.2
        renderedPixel.color,
      setCalls := s.setCalls ++ [renderedPixel.pixel],
      pixelNum := s.pixelNum + 1 }
    if s1.pixelNum % pixelBatch = 0 then
      let s2 := { s1 with locks := s1.locks ++ [LockEv.unlock LockId.cachedRenderLock] }
      if ctxDone s2.pixelNum then
        { s2 with err := some RenderError.Canceled }
      else
        let s3 := if hasSink then { s2 with sent := s2.sent ++ [s2.pixelNum] } else s2
        let s4 := { s3 with locks := s3.locks ++ [LockEv.lock LockId.cachedRenderLock] }
        collectorLoop ctxDone hasSink s4 rest
    else collectorLoop ctxDone hasSink s1 rest

/-- The result collector with its prologue (lines 89-91) and epilogue (lines 112-114). -/
def collector (ctxDone : Nat → Bool) (hasSink : Bool) (m : Image) (locks : List LockEv)
    (jobResults : List JobResult) : Collector :=
  let s0 : Collector :=
    { FullRender := m, pixelNum := 0, err := none,
      locks := locks ++ [LockEv.lock LockId.cachedRenderLock], setCalls := [], sent := [] }
  let s := collectorLoop ctxDone hasSink s0 jobResults
  if s.err = none then
    { s with locks := s.locks ++ [LockEv.unlock LockId.cachedRenderLock] }
  else s

/-- What the scheduler and the context decide during one call of implCommonRender. -/
structure Sched where
  /-- The generator's `select` at iteration `k` takes the `Done` branch. -/
  genDone : Nat → Bool
  /-- The collector's check at `pixelNum = n` sees the context done. -/
  colDone : Nat → Bool
  /-- The order in which the workers' results reach the collector. -/
  arrival : List JobResult → List JobResult

/-- The outcome of one call of implCommonRender. -/
structure RenderOut where
  err : Option RenderError
  FullRender : Image
  pixelsRand : List Nat
  locks : List LockEv
  jobs : List (Nat × Nat)
  setCalls : List (Nat × Nat)
  sent : List Nat
  sinkClosed : Bool

/-- The function implCommonRender (lines 23-118): the alpha pre-set under the lock, the
update of the traversal order, the work generator, the workers (lines 44-64), which turn
every job they receive into one result, and the result collector, which receives the
results in the order `sched.arrival` gives them. -/
def implCommonRender {V D : Type} (perm : Nat → List Nat)
    (div01 : Nat × Nat → Nat × Nat → V)
    (genJob : Nat × Nat → V → D) (processJob : Nat × Nat → V → D → JobResult)
    (sched : Sched) (hasSink : Bool) (FullRender : Image) (pixelsRand : List Nat) :
    RenderOut :=
  let locks0 := [LockEv.lock LockId.cachedRenderLock, LockEv.unlock LockId.cachedRenderLock]
  let m0 := initAlpha FullRender
  let boundsSize : Nat × Nat := (m0.W, m0.H)
  let pixelsRand1 := updatePixelsRand perm m0 pixelsRand
  let jobs := jobGenerator div01 genJob boundsSize sched.genDone 0 pixelsRand1
  let jobResults := sched.arrival (jobs.map (worker processJob))
  let c := collector sched.colDone hasSink m0 locks0 jobResults
  { err := c.err, FullRender := c.FullRender, pixelsRand := pixelsRand1, locks := c.locks,
    jobs := jobs.map (fun j => j.pixel), setCalls := c.setCalls, sent := c.sent,
    sinkClosed := hasSink }

/-! ## Lock disciplines, checked on a goroutine's lock operations -/

/-- Replays lock operations against `sync.RWMutex` `l` used as an exclusive lock by one
goroutine. `held` says whether the goroutine holds `l`. The result is `none` when the
goroutine unlocks `l` without holding it (a fatal error of the Go runtime) or locks it
while holding it (it would wait for itself for ever); otherwise it is whether `l` is held
at the end. Operations on other locks are skipped. -/
def mutexRun (l : LockId) : Bool → List LockEv → Option Bool
  | held, [] => some held
  | held, ev :: rest =>
    match ev with
    | LockEv.lock k | LockEv.rlock k =>
      if k = l then (if held then none else mutexRun l true rest) else mutexRun l held rest
    | LockEv.unlock k | LockEv.runlock k =>
      if k = l then (if held then mutexRun l false rest else none) else mutexRun l held rest

/-- Checks the fixed lock order on a goroutine's lock operations: `cached` counts how many
times the goroutine holds the cached-image lock; acquiring the state lock (for reading or
writing) while that count is positive is an inversion. -/
def lockOrderOK : Nat → List LockEv → Bool
  | _, [] => true
  | cached, ev :: rest =>
    match ev with
    | LockEv.lock k | LockEv.rlock k =>
      if k = LockId.implStateLock then (if 0 < cached then false else lockOrderOK cached rest)
      else if k = LockId.cachedRenderLock then lockOrderOK (cached + 1) rest
      else lockOrderOK cached rest
    | LockEv.unlock k | LockEv.runlock k =>
      if k = LockId.cachedRenderLock then lockOrderOK (cached - 1) rest
      else lockOrderOK cached rest

/-- How many times the goroutine holds the cached-image lock after the given operations,
starting from `cached`. -/
def cachedHeld : Nat → List LockEv → Nat
  | cached, [] => cached
  | cached, ev :: rest =>
    match ev with
    | LockEv.lock k | LockEv.rlock k =>
      if k = LockId.cachedRenderLock then cachedHeld (cached + 1) rest
      else cachedHeld cached rest
    | LockEv.unlock k | LockEv.runlock k =>
      if k = LockId.cachedRenderLock then cachedHeld (cached - 1) rest
      else cachedHeld cached rest

/-! ## drawsdf.go: lock operations of each code path -/

/-- The lock operations of drawSDF (lines 18-21 and the deferred unlocks, which run in
reverse order, also when the function panics). -/
def drawSDFLocks : List LockEv :=
  [LockEv.rlock LockId.implStateLock, LockEv.rlock LockId.cachedRenderLock,
   LockEv.runlock LockId.cachedRenderLock, LockEv.runlock LockId.implStateLock]

/-- The lock operations of the caller's part of rerenderOpt (lines 55-60). -/
def rerenderOptLocks : List LockEv :=
  [LockEv.rlock LockId.cachedRenderLock, LockEv.runlock LockId.cachedRenderLock]

/-- The branches the background task of rerenderOpt (lines 61-170) can take. -/
structure TaskPath where
  /-- The result of `r.renderingLock.TryLock(nil)`. -/
  tryLockOk : Bool
  forceCancel : Bool
  /-- The lock operations made inside `r.impl.Render`. -/
  renderLocks : List LockEv
  /-- Whether `r.impl.Render` returned an error. -/
  renderFailed : Bool
  /-- Whether `ebiten.NewImageFromImage` returned an error. -/
  uploadFailed : Bool

/-- The lock operations of the background task of rerenderOpt along the path `p`. A failed
`TryLock` acquires nothing. -/
def rerenderTaskLocks (p : TaskPath) : List LockEv :=
  if !p.tryLockOk && !p.forceCancel then []
  else
    (if p.tryLockOk then [LockEv.lock LockId.renderingLock]
     else [LockEv.rlock LockId.implStateLock, LockEv.runlock LockId.implStateLock,
           LockEv.lock LockId.renderingLock]) ++
    [LockEv.lock LockId.implStateLock, LockEv.unlock LockId.implStateLock] ++
    [LockEv.rlock LockId.implStateLock, LockEv.runlock LockId.implStateLock] ++
    [LockEv.rlock LockId.implLock] ++ p.renderLocks ++ [LockEv.runlock LockId.implLock] ++
    (if p.renderFailed || p.uploadFailed then []
     else [LockEv.rlock LockId.implLock, LockEv.lock LockId.implStateLock,
           LockEv.unlock LockId.implStateLock, LockEv.runlock LockId.implLock,
           LockEv.lock LockId.cachedRenderLock, LockEv.unlock LockId.cachedRenderLock]) ++
    [LockEv.unlock LockId.renderingLock]

/-- What happens to one snapshot received by the partial-render consumer (lines 88-105). -/
inductive SnapshotFate where
  | throttled
  | uploadFailed
  | published
deriving DecidableEq, Repr

/-- The lock operations of the partial-render consumer (lines 85-112) for the given fates of
the snapshots it receives, ending with the reset after the channel is closed. -/
def partialConsumerLocks : List SnapshotFate → List LockEv
  | [] => [LockEv.lock LockId.cachedRenderLock, LockEv.unlock LockId.cachedRenderLock]
  | SnapshotFate.throttled :: rest => partialConsumerLocks rest
  | SnapshotFate.uploadFailed :: rest =>
    [LockEv.rlock LockId.cachedRenderLock, LockEv.runlock LockId.cachedRenderLock] ++
      partialConsumerLocks rest
  | SnapshotFate.published :: rest =>
    [LockEv.rlock LockId.cachedRenderLock, LockEv.runlock LockId.cachedRenderLock,
     LockEv.lock LockId.cachedRenderLock, LockEv.unlock LockId.cachedRenderLock] ++
      partialConsumerLocks rest

/-! ## drawsdf.go: the throttle of the partial-render consumer -/

/-- The throttle of the partial-render consumer (lines 87-92). Times are in nanoseconds;
`lastPartialRender` starts as the time the consumer starts, `every` is
`r.partialRenderEvery`, and the list holds the time at which each snapshot is received. The
result is the list of snapshots that are not skipped. `time.Since` is never negative on
Go's monotonic clock, which the truncated subtraction agrees with. -/
def throttle (every : Nat) : Nat → List Nat → List Nat
  | _, [] => []
  | lastPartialRender, t :: rest =>
    if t - lastPartialRender < every then throttle every lastPartialRender rest
    else t :: throttle every t rest

/-- The value of `⌈D / T⌉` for natural numbers. -/
def ceilDiv (D T : Nat) : Nat := (D + T - 1) / T

/-! ## drawsdf.go: rerenderOpt as a step machine

The caller's part of rerenderOpt runs at once; the background task it spawns is cut into
atomic steps at its blocking points and at the calls into the scene and the GPU, and a
schedule (a list of actions) interleaves the steps of all the tasks. -/

/-- The fields of `Renderer` the pipeline reads and writes (the camera state and the cached
bounding box, which no step below branches on, are left out), with two counters of the
calls of `r.impl.Render` added. An `*ebiten.Image` is represented by the pixels it was made
from; `none` is a nil pointer. The contexts made by `context.WithCancel` are numbered
1, 2, ... in the order of their creation. -/
structure Renderer where
  cachedRender : Option Image
  cachedPartialRender : Option Image
  cachedRenderCPU : Option Image
  /-- Whether `renderingLock` is held. -/
  renderingLock : Bool
  /-- The number of the context `renderingCtxCancel` cancels, `none` for a nil func. -/
  renderingCtxCancel : Option Nat
  /-- How many contexts have been created. -/
  ctxCreated : Nat
  /-- The contexts whose cancel function has been called, in the order of the calls. -/
  ctxCancelled : List Nat
  screenSize : Nat × Nat
  ResInv : Nat
  implDimCache : Nat
  /-- How many calls of `r.impl.Render` have started. -/
  renderCalls : Nat
  /-- How many calls of `r.impl.Render` have started and not yet returned. -/
  renderActive : Nat
  /-- Whether a goroutine has panicked (a nil func or nil pointer was used). -/
  panicked : Bool
deriving DecidableEq, Repr

/-- Where a background task of rerenderOpt stands. -/
inductive PC where
  /-- Before `r.renderingLock.TryLock(nil)` (line 69). -/
  | start
  /-- Before `r.renderingCtxCancel()` (lines 73-75). -/
  | cancelPrev
  /-- Blocked in `r.renderingLock.Lock()` (line 76). -/
  | waitSlot
  /-- Holding the slot, before the new context is made (lines 79-83). -/
  | setup
  /-- Before the render buffer is reused or allocated (lines 113-131). -/
  | prepare
  /-- Before `r.impl.Render` is called (lines 132-133). -/
  | callRender
  /-- Inside `r.impl.Render` (lines 133-141). -/
  | inRender
  /-- Before `ebiten.NewImageFromImage` (lines 148-153). -/
  | upload
  /-- Before the caches are updated (lines 155-169). -/
  | updateCache
  /-- Before the deferred `r.renderingLock.Unlock()` and the callbacks. -/
  | release
  | done
deriving DecidableEq, Repr

/-- The local variables of one background task. `reported` is `none` until the deferred
callbacks are invoked and then holds the `err` they were given. -/
structure Task where
  forceCancel : Bool
  pc : PC
  err : Option RenderError
  renderCtx : Nat
  renderSize : Nat × Nat
  renderGpuImg : Option Image
  reported : Option (Option RenderError)
deriving DecidableEq, Repr

/-- The renderer, the background tasks spawned so far and the lines logged so far. -/
structure System where
  r : Renderer
  tasks : List Task
  log : List String
deriving DecidableEq, Repr

/-- The collaborators of the pipeline: the scene (`r.impl`) and the GPU upload. `Render n m`
is the outcome of `r.impl.Render` for the generation whose context has number `n`, called
with the buffer `m`: the error it returns and the buffer it leaves. -/
structure Env where
  Render : Nat → Image → Option RenderError × Image
  /-- The last snapshot the partial-render consumer of generation `n` published, `none`
  when it published none. -/
  Published : Nat → Option Image
  Dimensions : Nat
  NewImageFromImage : Image → Option Image

/-- The task `rerenderOpt(forceCancel, ...)` spawns. -/
def newTask (forceCancel : Bool) : Task :=
  { forceCancel := forceCancel, pc := PC.start, err := none, renderCtx := 0,
    renderSize := (0, 0), renderGpuImg := none, reported := none }

/-- The line logged by rerenderOpt when `r.cachedRender` is nil (line 57). -/
def tooSoon : String := "Trying to render too soon (before first Update())"

/-- The caller's part of rerenderOpt (lines 54-61 and 170): the check of `r.cachedRender`,
then the `go` statement. -/
def rerenderOpt (forceCancel : Bool) (s : System) : System :=
  let log1 := if s.r.cachedRender = none then s.log ++ [tooSoon] else s.log
  { s with log := log1, tasks := s.tasks ++ [newTask forceCancel] }

/-- The method `(*ebiten.Image).Fill(color.Transparent)`: every byte becomes 0. -/
def Image.FillTransparent (m : Image) : Image :=
  { m with Pix := List.replicate m.Pix.length 0 }

/-- Whether a task is between its acquisition of `renderingLock` and its release. -/
def PC.holdsSlot : PC → Bool
  | PC.setup | PC.prepare | PC.callRender | PC.inRender | PC.upload | PC.updateCache
  | PC.release => true
  | PC.start | PC.cancelPrev | PC.waitSlot | PC.done => false

/-- The next atomic step of a background task `t` in the renderer `r`. A task blocked in
`Lock` and a finished task do not move. The partial-render consumer the task spawns
(lines 84-112) is folded into the step in which `r.impl.Render` returns: whatever it
published last is reset by `Fill(color.Transparent)` once the scene has closed the
channel. The render size, `screenSize.ToV2().DivScalar(float64(ResInv)).ToV2i()`, is
taken as the integer quotient. -/
def taskStep (env : Env) (r : Renderer) (t : Task) : Renderer × Task :=
  match t.pc with
  | PC.start =>
    if !r.renderingLock then ({ r with renderingLock := true }, { t with pc := PC.setup })
    else if !t.forceCancel then (r, { t with pc := PC.done, reported := some t.err })
    else (r, { t with pc := PC.cancelPrev })
  | PC.cancelPrev =>
    match r.renderingCtxCancel with
    | none => ({ r with panicked := true }, t)
    | some n => ({ r with ctxCancelled := r.ctxCancelled ++ [n] }, { t with pc := PC.waitSlot })
  | PC.waitSlot =>
    if !r.renderingLock then ({ r with renderingLock := true }, { t with pc := PC.setup })
    else (r, t)
  | PC.setup =>
    let n := r.ctxCreated + 1
    ({ r with ctxCreated := n, renderingCtxCancel := some n },
     { t with renderCtx := n,
              renderSize := (r.screenSize.1 / r.ResInv, r.screenSize.2 / r.ResInv),
              pc := PC.prepare })
  | PC.prepare =>
    let sameSize := match r.cachedRenderCPU with
      | none => false
      | some m => decide ((m.W, m.H) = t.renderSize)
    let r1 := if sameSize then r
      else { r with cachedRenderCPU := some (NewRGBA t.renderSize.1 t.renderSize.2) }
    (r1, { t with pc := PC.callRender })
  | PC.callRender =>
    ({ r with renderCalls := r.renderCalls + 1, renderActive := r.renderActive + 1 },
     { t with pc := PC.inRender })
  | PC.inRender =>
    match r.cachedRenderCPU with
    | none => ({ r with panicked := true }, t)
    | some m =>
      let out := env.Render t.renderCtx m
      let shown := match env.Published t.renderCtx with
        | some g => some g
        | none => r.cachedPartialRender
      match shown with
      | none => ({ r with panicked := true }, t)
      | some pr =>
        ({ r with cachedRenderCPU := some out.2, renderActive := r.renderActive - 1,
                  cachedPartialRender := some pr.FillTransparent },
         { t with err := out.1, pc := if out.1 = none then PC.upload else PC.release })
  | PC.upload =>
    match r.cachedRenderCPU with
    | none => ({ r with panicked := true }, t)
    | some m =>
      match env.NewImageFromImage m with
      | none => (r, { t with err := some RenderError.Other, pc := PC.release })
      | some g => (r, { t with renderGpuImg := some g, pc := PC.updateCache })
  | PC.updateCache =>
    ({ r with implDimCache := env.Dimensions, cachedRender := t.renderGpuImg },
     { t with pc := PC.release })
  | PC.release =>
    ({ r with renderingLock := false }, { t with pc := PC.done, reported := some t.err })
  | PC.done => (r, t)

/-- One step of task number `i`; nothing moves once a goroutine has panicked. -/
def step (env : Env) (s : System) (i : Nat) : System :=
  if s.r.panicked then s
  else
    match s.tasks[i]? with
    | none => s
    | some t =>
      let rt := taskStep env s.r t
      { s with r := rt.1, tasks := s.tasks.set i rt.2 }

/-- What can happen next: a caller invokes rerenderOpt, or the scheduler runs one step of a
background task. -/
inductive Action where
  | rerender (forceCancel : Bool)
  | run (i : Nat)
deriving DecidableEq, Repr

/-- The effect of one action. -/
def act (env : Env) (s : System) : Action → System
  | Action.rerender forceCancel => rerenderOpt forceCancel s
  | Action.run i => step env s i

/-- The effect of a schedule. -/
def exec (env : Env) (s : System) (schedule : List Action) : System :=
  schedule.foldl (act env) s

/-- The renderer before any rerender: the slot is free and nothing is running. -/
def initSystem (r : Renderer) : System :=
  { r := { r with renderingLock := false, renderActive := 0, panicked := false },
    tasks := [], log := [] }

/-- The invariant of the rendering slot: a task between acquisition and release implies
the lock is held, there is at most one such task, a held lock has such a task, and the
count of running `Render` calls is 1 when a task is inside `Render` and 0 otherwise. -/
def SlotInv (s : System) : Prop :=
  (∀ (i : Nat) (t : Task), s.tasks[i]? = some t → t.pc.holdsSlot = true →
    s.r.renderingLock = true) ∧
  (∀ (i j : Nat) (ti tj : Task), s.tasks[i]? = some ti → s.tasks[j]? = some tj →
    ti.pc.holdsSlot = true → tj.pc.holdsSlot = true → i = j) ∧
  (s.r.renderingLock = true →
    ∃ (i : Nat) (t : Task), s.tasks[i]? = some t ∧ t.pc.holdsSlot = true) ∧
  s.r.renderActive ≤ 1 ∧
  (∀ (i : Nat) (t : Task), s.tasks[i]? = some t → t.pc = PC.inRender →
    s.r.renderActive = 1) ∧
  (s.r.renderActive = 1 →
    ∃ (i : Nat) (t : Task), s.tasks[i]? = some t ∧ t.pc = PC.inRender)

/-- What one step of a task may do to the slot and to the count of running renders. -/
def SlotStep (r : Renderer) (t : Task) (r' : Renderer) (t' : Task) : Prop :=
  (t'.pc.holdsSlot = true →
    r'.renderingLock = true ∧ (t.pc.holdsSlot = true ∨ r.renderingLock = false)) ∧
  (t'.pc.holdsSlot = false →
    (t.pc.holdsSlot = true → r'.renderingLock = false) ∧
    (t.pc.holdsSlot = false → r'.renderingLock = r.renderingLock)) ∧
  (r'.renderActive + (if t.pc = PC.inRender then 1 else 0)
    = r.renderActive + (if t'.pc = PC.inRender then 1 else 0))

/-! ## Concrete inputs -/

/-- A permutation generator for the examples: the index range reversed. -/
def revPerm (n : Nat) : List Nat := (List.range n).reverse

/-- Opaque red. -/
def red : RGBA := { R := 255, G := 0, B := 0, A := 255 }

/-- A scene for the examples: no job data, every pixel is opaque red. -/
def redJob (pixel : Nat × Nat) (_pixel01 : Unit) (_job : Unit) : JobResult :=
  { pixel := pixel, color := red }

/-- A pass that is never cancelled; the results arrive in the reverse of the job order. -/
def schedNoCancel : Sched :=
  { genDone := fun _ => false, colDone := fun _ => false, arrival := List.reverse }

/-- A pass whose context is cancelled while the generator waits to push its second job:
the generator stops after one job, and every later check of the context sees it done. -/
def schedCancelAfterOne : Sched :=
  { genDone := fun k => decide (1 ≤ k), colDone := fun _ => true, arrival := id }

/-- The call of implCommonRender on a `2 x 1` buffer under `schedCancelAfterOne`. -/
def cancelledPass (m : Image) : RenderOut :=
  implCommonRender revPerm (fun _ _ => ()) (fun _ _ => ()) redJob schedCancelAfterOne true m []

/-- A buffer of one pixel whose four bytes are all different from 0 and 255. -/
def onePixel : Image := { Pix := [10, 20, 30, 40], Stride := 4, W := 1, H := 1 }

/-- A scene whose every render is `cancelledPass`; the upload to the GPU succeeds. -/
def envCancelled : Env :=
  { Render := fun _ m => ((cancelledPass m).err, (cancelledPass m).FullRender),
    Published := fun _ => none, Dimensions := 2, NewImageFromImage := fun m => some m }

/-- A renderer with a `2 x 1` screen at full resolution that already shows an image. -/
def renderer21 : Renderer :=
  { cachedRender := some (NewRGBA 2 1), cachedPartialRender := some (NewRGBA 2 1),
    cachedRenderCPU := none, renderingLock := false, renderingCtxCancel := none,
    ctxCreated := 0, ctxCancelled := [], screenSize := (2, 1), ResInv := 1,
    implDimCache := 0, renderCalls := 0, renderActive := 0, panicked := false }

/-- The schedule that runs task number `i` for `n` steps. -/
def runTask (i n : Nat) : List Action := List.replicate n (Action.run i)

/-- A call of implCommonRender that is never cancelled and paints every pixel red. -/
def redPass (m : Image) : RenderOut :=
  implCommonRender revPerm (fun _ _ => ()) (fun _ _ => ()) redJob schedNoCancel true m []

/-- A scene whose every render is `redPass`; the upload to the GPU succeeds. -/
def envRed : Env :=
  { Render := fun _ m => ((redPass m).err, (redPass m).FullRender),
    Published := fun _ => none, Dimensions := 2, NewImageFromImage := fun m => some m }

/-- A renderer with a `2 x 1` screen whose `cachedRender` is still nil. -/
def rendererFresh : Renderer := { renderer21 with cachedRender := none }

/-- The state in which a second request arrives while the first generation holds the slot:
a forced rerender, one step of its task, then `rerenderOpt(false)`. -/
def busySystem : System :=
  exec envRed (initSystem renderer21)
    [Action.rerender true, Action.run 0, Action.rerender false]

/-- Snapshots arriving every 2 time units from time 2 to time 24. -/
def everyTwo : List Nat := [2, 4, 6, 8, 10, 12, 14, 16, 18, 20, 22, 24]

/-! # Theorems -/

/-! ## Properties of the alpha pre-set -/

theorem initAlphaLoop_length (fuel i : Nat) (pix : List Nat) :
    (initAlphaLoop fuel i pix).length = pix.length := by
  induction fuel generalizing i pix with
  | zero => rfl
  | succ n ih =>
    simp only [initAlphaLoop]
    split
    · rw [ih, List.length_set]
    · rfl

theorem initAlphaLoop_other (fuel i j : Nat) (pix : List Nat) (h : j % 4 ≠ i % 4) :
    (initAlphaLoop fuel i pix)[j]? = pix[j]? := by
  induction fuel generalizing i pix with
  | zero => rfl
  | succ n ih =>
    simp only [initAlphaLoop]
    split
    · rw [ih (i + 4) (pix.set i 255) (by omega)]
      have hij : i ≠ j := by
        intro e
        exact h (by rw [e])
      exact List.getElem?_set_ne hij
    · rfl

theorem initAlphaLoop_below (fuel i j : Nat) (pix : List Nat) (h : j < i) :
    (initAlphaLoop fuel i pix)[j]? = pix[j]? := by
  induction fuel generalizing i pix with
  | zero => rfl
  | succ n ih =>
    simp only [initAlphaLoop]
    split
    · rw [ih (i + 4) (pix.set i 255) (by omega)]
      exact List.getElem?_set_ne (by omega)
    · rfl

theorem initAlphaLoop_hit (fuel i j : Nat) (pix : List Nat) (hij : i ≤ j)
    (hmod : j % 4 = i % 4) (hj : j < pix.length) (hfuel : (j - i) / 4 < fuel) :
    (initAlphaLoop fuel i pix)[j]? = some 255 := by
  induction fuel generalizing i pix with
  | zero => omega
  | succ n ih =>
    simp only [initAlphaLoop]
    have hi : i < pix.length := by omega
    rw [if_pos hi]
    by_cases e : i = j
    · subst e
      rw [initAlphaLoop_below n (i + 4) i _ (by omega)]
      simp [List.getElem?_set, hi]
    · have h4 : i + 4 ≤ j := by omega
      exact ih (i + 4) (pix.set i 255) h4 (by omega) (by rw [List.length_set]; exact hj)
        (by omega)

/-- After the pre-set every alpha byte of the buffer is 255 and every colour byte is what it
was. -/
theorem initAlpha_spec (m : Image) :
    (initAlpha m).Pix.length = m.Pix.length ∧
    (∀ p, 4 * p + 3 < m.Pix.length → (initAlpha m).Pix[4 * p + 3]? = some 255) ∧
    (∀ j, j % 4 ≠ 3 → (initAlpha m).Pix[j]? = m.Pix[j]?) := by
  refine ⟨initAlphaLoop_length _ _ _, ?_, ?_⟩
  · intro p hp
    exact initAlphaLoop_hit _ 3 _ _ (by omega) (by omega) hp (by omega)
  · intro j hj
    exact initAlphaLoop_other _ 3 j _ (by omega)

/-! ## The traversal order and the pixels written -/

theorem sampledPixel_in_bounds (W H i : Nat) (hi : i < W * H) :
    (sampledPixel (W, H) i).1 < W ∧ (sampledPixel (W, H) i).2 < H := by
  have hW : 0 < W := by
    rcases Nat.eq_zero_or_pos W with h | h
    · subst h; simp at hi
    · exact h
  exact ⟨Nat.mod_lt _ hW, Nat.div_lt_of_lt_mul hi⟩

theorem sampledPixel_injective (W H i j : Nat)
    (h : sampledPixel (W, H) i = sampledPixel (W, H) j) : i = j := by
  simp only [sampledPixel, Prod.mk.injEq] at h
  rw [← Nat.div_add_mod i W, ← Nat.div_add_mod j W, h.1, h.2]

theorem sampledPixel_surjective (W H x y : Nat) (hx : x < W) (hy : y < H) :
    y * W + x < W * H ∧ sampledPixel (W, H) (y * W + x) = (x, y) := by
  constructor
  · calc y * W + x < y * W + W := by omega
      _ = (y + 1) * W := by ring
      _ ≤ H * W := Nat.mul_le_mul_right W hy
      _ = W * H := Nat.mul_comm H W
  · have hW : 0 < W := by omega
    simp only [sampledPixel, Prod.mk.injEq]
    constructor
    · rw [Nat.add_comm, Nat.add_mul_mod_self_right, Nat.mod_eq_of_lt hx]
    · rw [Nat.add_comm, Nat.add_mul_div_right _ _ hW, Nat.div_eq_of_lt hx, Nat.zero_add]

theorem count_pixel_eq (a : Nat × Nat) (l : List (Nat × Nat)) :
    l.count a = @List.count _ instBEqOfDecidableEq a l := by
  induction l with
  | nil => rfl
  | cons b t ih =>
    rw [List.count_cons, @List.count_cons _ instBEqOfDecidableEq, ih]
    congr 1
    have h1 : (@BEq.beq _ instBEqProd b a) = decide (b = a) := by
      rcases a with ⟨a1, a2⟩
      rcases b with ⟨b1, b2⟩
      by_cases h : b1 = a1 <;> by_cases h' : b2 = a2 <;> simp [h, h']
    have h2 : (@BEq.beq _ instBEqOfDecidableEq b a) = decide (b = a) := rfl
    rw [h1, h2]

/-- Every pixel of a `W x H` buffer is sampled exactly once by a traversal order that is a
permutation of `[0, W*H)`. -/
theorem sampled_count_one (W H : Nat) (order : List Nat)
    (hperm : order.Perm (List.range (W * H))) (x y : Nat) (hx : x < W) (hy : y < H) :
    (order.map (sampledPixel (W, H))).count (x, y) = 1 := by
  have hnd : (order.map (sampledPixel (W, H))).Nodup := by
    apply List.Nodup.map_on
    · intro a _ b _ hab
      exact sampledPixel_injective W H a b hab
    · exact (List.Perm.nodup_iff hperm).mpr (List.nodup_range _)
  rw [count_pixel_eq]
  apply List.count_eq_one_of_mem hnd
  rw [List.mem_map]
  refine ⟨y * W + x, ?_, (sampledPixel_surjective W H x y hx hy).2⟩
  rw [List.Perm.mem_iff hperm, List.mem_range]
  exact (sampledPixel_surjective W H x y hx hy).1

theorem jobGenerator_pixels {V D : Type} (div01 : Nat × Nat → Nat × Nat → V)
    (genJob : Nat × Nat → V → D) (boundsSize : Nat × Nat) (ctxDone : Nat → Bool)
    (h : ∀ k, ctxDone k = false) (k : Nat) (order : List Nat) :
    (jobGenerator div01 genJob boundsSize ctxDone k order).map (fun j => j.pixel)
      = order.map (sampledPixel boundsSize) := by
  induction order generalizing k with
  | nil => rfl
  | cons a rest ih =>
    simp only [jobGenerator, h k, Bool.false_eq_true, if_false, List.map_cons, ih]

theorem jobGenerator_length_le {V D : Type} (div01 : Nat × Nat → Nat × Nat → V)
    (genJob : Nat × Nat → V → D) (boundsSize : Nat × Nat) (ctxDone : Nat → Bool)
    (k : Nat) (order : List Nat) :
    (jobGenerator div01 genJob boundsSize ctxDone k order).length ≤ order.length := by
  induction order generalizing k with
  | nil => simp [jobGenerator]
  | cons a rest ih =>
    simp only [jobGenerator]
    split
    · simp
    · simp only [List.length_cons]
      exact Nat.succ_le_succ (ih (k + 1))

theorem collectorLoop_not_done (ctxDone : Nat → Bool) (hasSink : Bool)
    (h : ∀ n, ctxDone n = false) (s : Collector) (rs : List JobResult) :
    (collectorLoop ctxDone hasSink s rs).setCalls = s.setCalls ++ rs.map (fun r => r.pixel) ∧
    (collectorLoop ctxDone hasSink s rs).err = s.err := by
  induction rs generalizing s with
  | nil => simp [collectorLoop]
  | cons a rest ih =>
    simp only [collectorLoop, h, Bool.false_eq_true, if_false]
    split
    · split
      · rw [(ih _).1, (ih _).2]; simp
      · rw [(ih _).1, (ih _).2]; simp
    · rw [(ih _).1, (ih _).2]; simp

theorem updatePixelsRand_perm (perm : Nat → List Nat) (m : Image) (pixelsRand : List Nat)
    (hperm : ∀ n, (perm n).Perm (List.range n))
    (hprev : pixelsRand.Perm (List.range pixelsRand.length)) :
    (updatePixelsRand perm m pixelsRand).Perm (List.range (m.W * m.H)) := by
  unfold updatePixelsRand
  simp only
  split
  · exact hperm _
  · rename_i h
    rw [not_not] at h
    rw [h]
    exact hprev

theorem initAlpha_W (m : Image) : (initAlpha m).W = m.W := rfl

theorem initAlpha_H (m : Image) : (initAlpha m).H = m.H := rfl

theorem worker_pixels {V D : Type} (processJob : Nat × Nat → V → D → JobResult)
    (hecho : ∀ p v d, (processJob p v d).pixel = p) (jobs : List (JobInternal V D)) :
    (jobs.map (worker processJob)).map (fun r => r.pixel) = jobs.map (fun j => j.pixel) := by
  rw [List.map_map]
  apply List.map_congr_left
  intro j _
  simp [worker, hecho]

theorem count_perm_pixel (a : Nat × Nat) (l₁ l₂ : List (Nat × Nat)) (h : l₁.Perm l₂) :
    l₁.count a = l₂.count a := by
  rw [count_pixel_eq a l₁, count_pixel_eq a l₂]
  exact List.Perm.count_eq h a

/-- C1. A pass of implCommonRender that is not cancelled writes every pixel of the buffer
exactly once. Given that `rand.Perm` returns permutations, that the order held from
earlier calls is a permutation of its own index range (whatever the shape of the buffer
it was made for), that the context is never seen done, that the workers' results reach
the collector in some order, and that `processJob` answers for the pixel it was given:
the call returns nil; `i -> (i mod W, i div W)` is a bijection from `[0, W*H)` onto
`[0,W) x [0,H)`; one job is generated per index, one `SetRGBA` call is made per job, all of
them inside the buffer; every pixel is the target of exactly one job and of exactly one
`SetRGBA` call; and an order of length `W*H` is reused as it is. -/
theorem implCommonRender_writes_each_pixel_once {V D : Type} (perm : Nat → List Nat)
    (div01 : Nat × Nat → Nat × Nat → V) (genJob : Nat × Nat → V → D)
    (processJob : Nat × Nat → V → D → JobResult) (sched : Sched) (hasSink : Bool)
    (m : Image) (pixelsRand : List Nat)
    (hperm : ∀ n, (perm n).Perm (List.range n))
    (hprev : pixelsRand.Perm (List.range pixelsRand.length))
    (hgen : ∀ k, sched.genDone k = false) (hcol : ∀ n, sched.colDone n = false)
    (harr : ∀ l, (sched.arrival l).Perm l)
    (hecho : ∀ p v d, (processJob p v d).pixel = p) :
    (implCommonRender perm div01 genJob processJob sched hasSink m pixelsRand).err = none ∧
    (∀ x y, x < m.W → y < m.H →
      ∃! i, i < m.W * m.H ∧ sampledPixel (m.W, m.H) i = (x, y)) ∧
    (∀ i, i < m.W * m.H →
      (sampledPixel (m.W, m.H) i).1 < m.W ∧ (sampledPixel (m.W, m.H) i).2 < m.H) ∧
    (implCommonRender perm div01 genJob processJob sched hasSink m pixelsRand).jobs.length
      = m.W * m.H ∧
    (implCommonRender perm div01 genJob processJob sched hasSink m pixelsRand).setCalls.length
      = m.W * m.H ∧
    (∀ p ∈ (implCommonRender perm div01 genJob processJob sched hasSink m
      pixelsRand).setCalls, p.1 < m.W ∧ p.2 < m.H) ∧
    (∀ x y, x < m.W → y < m.H →
      (implCommonRender perm div01 genJob processJob sched hasSink m pixelsRand).jobs.count
        (x, y) = 1) ∧
    (∀ x y, x < m.W → y < m.H →
      (implCommonRender perm div01 genJob processJob sched hasSink m pixelsRand).setCalls.count
        (x, y) = 1) ∧
    (pixelsRand.length = m.W * m.H →
      (implCommonRender perm div01 genJob processJob sched hasSink m pixelsRand).pixelsRand
        = pixelsRand) := by
  have hord := updatePixelsRand_perm perm (initAlpha m) pixelsRand hperm hprev
  rw [initAlpha_W, initAlpha_H] at hord
  have hjobs : (implCommonRender perm div01 genJob processJob sched hasSink m pixelsRand).jobs
      = (updatePixelsRand perm (initAlpha m) pixelsRand).map (sampledPixel (m.W, m.H)) := by
    simp only [implCommonRender]
    exact jobGenerator_pixels div01 genJob _ sched.genDone hgen 0 _
  have hloop := collectorLoop_not_done sched.colDone hasSink hcol
  have herr : (implCommonRender perm div01 genJob processJob sched hasSink m pixelsRand).err
      = none := by
    simp only [implCommonRender, collector]
    split
    · simpa using (hloop _ _).2
    · rename_i h
      exact absurd (by simpa using (hloop _ _).2) h
  have hset : (implCommonRender perm div01 genJob processJob sched hasSink m
      pixelsRand).setCalls.Perm
      (implCommonRender perm div01 genJob processJob sched hasSink m pixelsRand).jobs := by
    have h1 : (implCommonRender perm div01 genJob processJob sched hasSink m
        pixelsRand).setCalls = (sched.arrival
          ((jobGenerator div01 genJob (m.W, m.H) sched.genDone 0
            (updatePixelsRand perm (initAlpha m) pixelsRand)).map
              (worker processJob))).map (fun r => r.pixel) := by
      simp only [implCommonRender, collector]
      split
      · simpa using (hloop _ _).1
      · simpa using (hloop _ _).1
    rw [h1]
    have h2 := (harr ((jobGenerator div01 genJob (m.W, m.H) sched.genDone 0
      (updatePixelsRand perm (initAlpha m) pixelsRand)).map (worker processJob))).map
        (fun r => r.pixel)
    rw [worker_pixels processJob hecho] at h2
    exact h2
  have hlen : (implCommonRender perm div01 genJob processJob sched hasSink m
      pixelsRand).jobs.length = m.W * m.H := by
    rw [hjobs, List.length_map, hord.length_eq, List.length_range]
  have hin : ∀ p ∈ (implCommonRender perm div01 genJob processJob sched hasSink m
      pixelsRand).jobs, p.1 < m.W ∧ p.2 < m.H := by
    intro p hp
    rw [hjobs, List.mem_map] at hp
    obtain ⟨i, hi, rfl⟩ := hp
    rw [List.Perm.mem_iff hord, List.mem_range] at hi
    exact sampledPixel_in_bounds m.W m.H i hi
  refine ⟨herr, ?_, fun i hi => sampledPixel_in_bounds m.W m.H i hi, hlen, ?_, ?_, ?_, ?_, ?_⟩
  · intro x y hx hy
    refine ⟨y * m.W + x, sampledPixel_surjective m.W m.H x y hx hy, ?_⟩
    intro j hj
    apply sampledPixel_injective m.W m.H
    rw [hj.2, (sampledPixel_surjective m.W m.H x y hx hy).2]
  · rw [hset.length_eq, hlen]
  · intro p hp
    exact hin p ((List.Perm.mem_iff hset).mp hp)
  · intro x y hx hy
    rw [hjobs]
    exact sampled_count_one m.W m.H _ hord x y hx hy
  · intro x y hx hy
    rw [count_perm_pixel _ _ _ hset, hjobs]
    exact sampled_count_one m.W m.H _ hord x y hx hy
  · intro h
    simp only [implCommonRender, updatePixelsRand, initAlpha]
    simp [h]

/-! ## The cached-image lock in the result collector -/

theorem mutexRun_append (l : LockId) (held : Bool) (a b : List LockEv) :
    mutexRun l held (a ++ b) = (mutexRun l held a).bind (fun h => mutexRun l h b) := by
  induction a generalizing held with
  | nil => rfl
  | cons ev rest ih =>
    cases ev <;> simp only [List.cons_append, mutexRun] <;> split <;>
      first
      | (split <;> first | rfl | exact ih _)
      | exact ih _

theorem mutexRun_snoc (l : LockId) (a : List LockEv) (ev : LockEv) (h : Bool)
    (ha : mutexRun l false a = some h) :
    mutexRun l false (a ++ [ev]) = mutexRun l h [ev] := by
  rw [mutexRun_append, ha]
  rfl

/-- The loop of the collector keeps the lock held while it goes on and leaves it released
when it breaks on cancellation. -/
theorem collectorLoop_lock (ctxDone : Nat → Bool) (hasSink : Bool) (s : Collector)
    (rs : List JobResult) (herr : s.err = none)
    (hheld : mutexRun LockId.cachedRenderLock false s.locks = some true) :
    ((collectorLoop ctxDone hasSink s rs).err = none ∧
      mutexRun LockId.cachedRenderLock false (collectorLoop ctxDone hasSink s rs).locks
        = some true) ∨
    ((collectorLoop ctxDone hasSink s rs).err = some RenderError.Canceled ∧
      mutexRun LockId.cachedRenderLock false (collectorLoop ctxDone hasSink s rs).locks
        = some false) := by
  induction rs generalizing s with
  | nil => exact Or.inl ⟨herr, hheld⟩
  | cons a rest ih =>
    simp only [collectorLoop]
    split
    · split
      · right
        refine ⟨rfl, ?_⟩
        simp only
        rw [mutexRun_snoc _ _ _ _ hheld]
        rfl
      · apply ih
        · split <;> exact herr
        · have h1 : mutexRun LockId.cachedRenderLock false
              (s.locks ++ [LockEv.unlock LockId.cachedRenderLock]) = some false := by
            rw [mutexRun_snoc _ _ _ _ hheld]
            rfl
          split
          · simp only
            rw [mutexRun_snoc _ _ _ _ h1]
            rfl
          · simp only
            rw [mutexRun_snoc _ _ _ _ h1]
            rfl
    · exact ih _ herr hheld

theorem collector_lock (ctxDone : Nat → Bool) (hasSink : Bool) (m : Image)
    (locks : List LockEv) (rs : List JobResult)
    (h0 : mutexRun LockId.cachedRenderLock false locks = some false) :
    mutexRun LockId.cachedRenderLock false (collector ctxDone hasSink m locks rs).locks
      = some false := by
  have h1 : mutexRun LockId.cachedRenderLock false
      (locks ++ [LockEv.lock LockId.cachedRenderLock]) = some true := by
    rw [mutexRun_snoc _ _ _ _ h0]
    rfl
  simp only [collector]
  rcases collectorLoop_lock ctxDone hasSink
    { FullRender := m, pixelNum := 0, err := none,
      locks := locks ++ [LockEv.lock LockId.cachedRenderLock], setCalls := [], sent := [] }
    rs rfl h1 with h | h
  · rw [if_pos h.1]
    simp only
    rw [mutexRun_snoc _ _ _ _ h.2]
    rfl
  · rw [if_neg (by rw [h.1]; simp)]
    exact h.2

/-- C10. The result collector keeps the cached-image lock balanced for every list of
results (of any length) and every way the context is seen at the batch boundaries: its lock
operations never unlock the lock while it is not held and never lock it while it is held,
and the lock is released when the function returns. When the loop ends without an error
the lock is held at that point and is released once after the loop; when the loop breaks
on cancellation the lock is already released and no further unlock is made. The same holds
for the lock operations of a whole call of implCommonRender. -/
theorem collector_lock_balanced (ctxDone : Nat → Bool) (hasSink : Bool) (m : Image)
    (rs : List JobResult) :
    mutexRun LockId.cachedRenderLock false (collector ctxDone hasSink m [] rs).locks
      = some false ∧
    (((collector ctxDone hasSink m [] rs).err = none ∧
      ∃ t, mutexRun LockId.cachedRenderLock false t = some true ∧
        (collector ctxDone hasSink m [] rs).locks
          = t ++ [LockEv.unlock LockId.cachedRenderLock] ∧
        t = (collectorLoop ctxDone hasSink
          { FullRender := m, pixelNum := 0, err := none,
            locks := [LockEv.lock LockId.cachedRenderLock], setCalls := [], sent := [] }
          rs).locks) ∨
     ((collector ctxDone hasSink m [] rs).err = some RenderError.Canceled ∧
      (collector ctxDone hasSink m [] rs).locks = (collectorLoop ctxDone hasSink
          { FullRender := m, pixelNum := 0, err := none,
            locks := [LockEv.lock LockId.cachedRenderLock], setCalls := [], sent := [] }
          rs).locks ∧
      mutexRun LockId.cachedRenderLock false (collectorLoop ctxDone hasSink
          { FullRender := m, pixelNum := 0, err := none,
            locks := [LockEv.lock LockId.cachedRenderLock], setCalls := [], sent := [] }
          rs).locks = some false)) ∧
    (∀ (V D : Type) (perm : Nat → List Nat) (div01 : Nat × Nat → Nat × Nat → V)
      (genJob : Nat × Nat → V → D) (processJob : Nat × Nat → V → D → JobResult)
      (sched : Sched) (pixelsRand : List Nat),
      mutexRun LockId.cachedRenderLock false
        (implCommonRender perm div01 genJob processJob sched hasSink m pixelsRand).locks
        = some false) := by
  refine ⟨collector_lock ctxDone hasSink m [] rs rfl, ?_, ?_⟩
  · rcases collectorLoop_lock ctxDone hasSink
      { FullRender := m, pixelNum := 0, err := none,
        locks := [LockEv.lock LockId.cachedRenderLock], setCalls := [], sent := [] }
      rs rfl rfl with h | h
    · left
      simp only [collector, List.nil_append]
      rw [if_pos h.1]
      exact ⟨h.1, _, h.2, rfl, rfl⟩
    · right
      simp only [collector, List.nil_append]
      rw [if_neg (by rw [h.1]; simp)]
      exact ⟨h.1, rfl, h.2⟩
  · intro V D perm div01 genJob processJob sched pixelsRand
    simp only [implCommonRender]
    exact collector_lock _ _ _ _ _ rfl

/-- C2. After the step "update random pixels" the traversal order is a bijection over
`[0, N)` for `N = W*H`: a permutation of the index range, of length `N`, holding each
index exactly once; and when `N` is the length of the order held from the previous call
that order is kept, element for element. `rand.Perm` is taken to return permutations, and
the order held is one an earlier call left (a permutation of its own index range; the
empty slice before the first call). The order a call of implCommonRender leaves is the
one this step computes. -/
theorem updatePixelsRand_bijection_reuse (perm : Nat → List Nat) (m : Image)
    (pixelsRand : List Nat)
    (hperm : ∀ n, (perm n).Perm (List.range n))
    (hprev : pixelsRand.Perm (List.range pixelsRand.length)) :
    (updatePixelsRand perm m pixelsRand).Perm (List.range (m.W * m.H)) ∧
    (updatePixelsRand perm m pixelsRand).length = m.W * m.H ∧
    (∀ i, i < m.W * m.H → (updatePixelsRand perm m pixelsRand).count i = 1) ∧
    (∀ i ∈ updatePixelsRand perm m pixelsRand, i < m.W * m.H) ∧
    (m.W * m.H = pixelsRand.length → updatePixelsRand perm m pixelsRand = pixelsRand) ∧
    (∀ (V D : Type) (div01 : Nat × Nat → Nat × Nat → V) (genJob : Nat × Nat → V → D)
      (processJob : Nat × Nat → V → D → JobResult) (sched : Sched) (hasSink : Bool),
      (implCommonRender perm div01 genJob processJob sched hasSink m pixelsRand).pixelsRand
        = updatePixelsRand perm m pixelsRand) := by
  have h := updatePixelsRand_perm perm m pixelsRand hperm hprev
  refine ⟨h, ?_, ?_, ?_, ?_, ?_⟩
  · rw [h.length_eq, List.length_range]
  · intro i hi
    rw [List.Perm.count_eq h]
    exact List.count_eq_one_of_mem (List.nodup_range _) (List.mem_range.mpr hi)
  · intro i hi
    exact List.mem_range.mp ((List.Perm.mem_iff h).mp hi)
  · intro hN
    simp [updatePixelsRand, hN]
  · intro V D div01 genJob processJob sched hasSink
    rfl

/-- Witness of C2: an order made for a `2 x 3` buffer is reused for a `3 x 2` buffer. -/
theorem updatePixelsRand_bijection_reuse_witness :
    (updatePixelsRand revPerm (NewRGBA 3 2) [5, 3, 1, 0, 2, 4]).Perm (List.range (3 * 2)) ∧
    (updatePixelsRand revPerm (NewRGBA 3 2) [5, 3, 1, 0, 2, 4]).length = 3 * 2 ∧
    (∀ i, i < 3 * 2 → (updatePixelsRand revPerm (NewRGBA 3 2) [5, 3, 1, 0, 2, 4]).count i = 1) ∧
    (∀ i ∈ updatePixelsRand revPerm (NewRGBA 3 2) [5, 3, 1, 0, 2, 4], i < 3 * 2) ∧
    (3 * 2 = [5, 3, 1, 0, 2, 4].length →
      updatePixelsRand revPerm (NewRGBA 3 2) [5, 3, 1, 0, 2, 4] = [5, 3, 1, 0, 2, 4]) ∧
    (∀ (V D : Type) (div01 : Nat × Nat → Nat × Nat → V) (genJob : Nat × Nat → V → D)
      (processJob : Nat × Nat → V → D → JobResult) (sched : Sched) (hasSink : Bool),
      (implCommonRender revPerm div01 genJob processJob sched hasSink (NewRGBA 3 2)
        [5, 3, 1, 0, 2, 4]).pixelsRand
        = updatePixelsRand revPerm (NewRGBA 3 2) [5, 3, 1, 0, 2, 4]) :=
  updatePixelsRand_bijection_reuse revPerm (NewRGBA 3 2) [5, 3, 1, 0, 2, 4]
    (fun n => List.reverse_perm (List.range n)) (by decide)

/-- C4 (what the code does). On a buffer of one pixel with bytes `10, 20, 30, 40` the
alpha pre-set leaves the colour bytes and sets the alpha byte to 255, which is fully
opaque, not to 0. -/
theorem initAlpha_onePixel :
    (initAlpha onePixel).Pix = [10, 20, 30, 255] ∧
    (initAlpha onePixel).Pix[4 * 0 + 3]? = some 255 ∧
    (initAlpha onePixel).Pix[4 * 0 + 3]? ≠ some 0 := by
  decide

/-- Witness of C1: a `3 x 2` buffer, an order made for a `2 x 3` buffer, results arriving
in reverse. -/
theorem implCommonRender_writes_each_pixel_once_witness :
    (implCommonRender revPerm (fun _ _ => ()) (fun _ _ => ()) redJob schedNoCancel true
      (NewRGBA 3 2) [5, 3, 1, 0, 2, 4]).err = none ∧
    (∀ x y, x < 3 → y < 2 → ∃! i, i < 3 * 2 ∧ sampledPixel (3, 2) i = (x, y)) ∧
    (∀ i, i < 3 * 2 → (sampledPixel (3, 2) i).1 < 3 ∧ (sampledPixel (3, 2) i).2 < 2) ∧
    (implCommonRender revPerm (fun _ _ => ()) (fun _ _ => ()) redJob schedNoCancel true
      (NewRGBA 3 2) [5, 3, 1, 0, 2, 4]).jobs.length = 3 * 2 ∧
    (implCommonRender revPerm (fun _ _ => ()) (fun _ _ => ()) redJob schedNoCancel true
      (NewRGBA 3 2) [5, 3, 1, 0, 2, 4]).setCalls.length = 3 * 2 ∧
    (∀ p ∈ (implCommonRender revPerm (fun _ _ => ()) (fun _ _ => ()) redJob schedNoCancel
      true (NewRGBA 3 2) [5, 3, 1, 0, 2, 4]).setCalls, p.1 < 3 ∧ p.2 < 2) ∧
    (∀ x y, x < 3 → y < 2 →
      (implCommonRender revPerm (fun _ _ => ()) (fun _ _ => ()) redJob schedNoCancel true
        (NewRGBA 3 2) [5, 3, 1, 0, 2, 4]).jobs.count (x, y) = 1) ∧
    (∀ x y, x < 3 → y < 2 →
      (implCommonRender revPerm (fun _ _ => ()) (fun _ _ => ()) redJob schedNoCancel true
        (NewRGBA 3 2) [5, 3, 1, 0, 2, 4]).setCalls.count (x, y) = 1) ∧
    ([5, 3, 1, 0, 2, 4].length = 3 * 2 →
      (implCommonRender revPerm (fun _ _ => ()) (fun _ _ => ()) redJob schedNoCancel true
        (NewRGBA 3 2) [5, 3, 1, 0, 2, 4]).pixelsRand = [5, 3, 1, 0, 2, 4]) :=
  implCommonRender_writes_each_pixel_once revPerm (fun _ _ => ()) (fun _ _ => ()) redJob
    schedNoCancel true (NewRGBA 3 2) [5, 3, 1, 0, 2, 4]
    (fun n => List.reverse_perm (List.range n)) (by decide)
    (fun _ => rfl) (fun _ => rfl) (fun l => List.reverse_perm l) (fun _ _ _ => rfl)

/-! ## The rendering slot -/

theorem taskStep_slotStep (env : Env) (r : Renderer) (t : Task)
    (hlock : t.pc.holdsSlot = true → r.renderingLock = true)
    (hact : t.pc = PC.inRender → r.renderActive = 1) :
    SlotStep r t (taskStep env r t).1 (taskStep env r t).2 := by
  unfold SlotStep
  cases hpc : t.pc
  case start =>
    unfold taskStep
    rw [hpc]
    cases hl : r.renderingLock <;> cases hf : t.forceCancel <;> simp [PC.holdsSlot, hpc, hl]
  case cancelPrev =>
    unfold taskStep
    rw [hpc]
    cases hc : r.renderingCtxCancel <;> simp [PC.holdsSlot, hpc]
  case waitSlot =>
    unfold taskStep
    rw [hpc]
    cases hl : r.renderingLock <;> simp [PC.holdsSlot, hpc, hl]
  case setup =>
    have := hlock (by rw [hpc]; rfl)
    unfold taskStep
    rw [hpc]
    simp [PC.holdsSlot, hpc, this]
  case prepare =>
    have := hlock (by rw [hpc]; rfl)
    unfold taskStep
    rw [hpc]
    cases hc : r.cachedRenderCPU
    · simp [PC.holdsSlot, hpc, this]
    · rename_i m
      by_cases hs : (m.W, m.H) = t.renderSize <;> simp [PC.holdsSlot, hpc, this, hs]
  case callRender =>
    have := hlock (by rw [hpc]; rfl)
    unfold taskStep
    rw [hpc]
    simp [PC.holdsSlot, hpc, this]
  case inRender =>
    have h1 := hlock (by rw [hpc]; rfl)
    have h2 := hact hpc
    unfold taskStep
    rw [hpc]
    cases hc : r.cachedRenderCPU
    · simp [PC.holdsSlot, hpc, h1]
    · rename_i m
      cases hp : env.Published t.renderCtx <;> cases hq : r.cachedPartialRender <;>
        cases he : (env.Render t.renderCtx m).1 <;>
        simp [PC.holdsSlot, hpc, h1, h2, he]
  case upload =>
    have h1 := hlock (by rw [hpc]; rfl)
    unfold taskStep
    rw [hpc]
    cases hc : r.cachedRenderCPU
    · simp [PC.holdsSlot, hpc, h1]
    · rename_i m
      cases hu : env.NewImageFromImage m <;> simp [PC.holdsSlot, h1, hu]
  case updateCache =>
    have := hlock (by rw [hpc]; rfl)
    unfold taskStep
    rw [hpc]
    simp [PC.holdsSlot, hpc, this]
  case release =>
    unfold taskStep
    rw [hpc]
    simp [PC.holdsSlot, hpc]
  case done =>
    unfold taskStep
    rw [hpc]
    simp [PC.holdsSlot, hpc]

theorem getElem?_set_task (l : List Task) (i j : Nat) (t' u : Task)
    (h : (l.set i t')[j]? = some u) :
    (j = i ∧ u = t') ∨ (j ≠ i ∧ l[j]? = some u) := by
  by_cases hij : i = j
  · left
    subst hij
    rw [List.getElem?_set] at h
    simp only [if_true] at h
    split at h
    · exact ⟨rfl, (Option.some.inj h).symm⟩
    · exact absurd h (by simp)
  · right
    rw [List.getElem?_set_ne hij] at h
    exact ⟨fun e => hij e.symm, h⟩

theorem getElem?_set_task_self (l : List Task) (i : Nat) (t t' : Task)
    (h : l[i]? = some t) : (l.set i t')[i]? = some t' := by
  rw [List.getElem?_set]
  have hi : i < l.length := by
    rcases List.getElem?_eq_some.mp h with ⟨hi, _⟩
    exact hi
  simp [hi]

theorem getElem?_set_task_other (l : List Task) (i j : Nat) (t' u : Task) (hij : j ≠ i)
    (h : l[j]? = some u) : (l.set i t')[j]? = some u := by
  rw [List.getElem?_set_ne (fun e => hij e.symm)]
  exact h

theorem holdsSlot_of_inRender (pc : PC) (h : pc = PC.inRender) : pc.holdsSlot = true := by
  subst h
  rfl

theorem slotInv_update (s : System) (i : Nat) (t : Task) (r' : Renderer) (t' : Task)
    (hinv : SlotInv s) (hi : s.tasks[i]? = some t) (hstep : SlotStep s.r t r' t') :
    SlotInv { s with r := r', tasks := s.tasks.set i t' } := by
  obtain ⟨h1, h2, h3, h4, h5, h6⟩ := hinv
  obtain ⟨s1, s2, s3⟩ := hstep
  have hself := getElem?_set_task_self s.tasks i t t' hi
  -- a task other than `i` that holds the slot excludes `t` and `t'` from entering
  have hother : ∀ (j : Nat) (u : Task), j ≠ i → s.tasks[j]? = some u →
      u.pc.holdsSlot = true → t.pc.holdsSlot = false ∧ t'.pc.holdsSlot = false := by
    intro j u hji hu hh
    have ht : t.pc.holdsSlot = false := by
      cases hth : t.pc.holdsSlot
      · rfl
      · exact absurd (h2 j i u t hu hi hh hth) hji
    refine ⟨ht, ?_⟩
    cases ht' : t'.pc.holdsSlot
    · rfl
    · rcases (s1 ht').2 with h | h
      · rw [ht] at h; exact absurd h (by simp)
      · rw [h1 j u hu hh] at h; exact absurd h (by simp)
  -- when `t'` enters `Render` and `t` was not inside it, no render was running
  have hzero : t'.pc = PC.inRender → t.pc ≠ PC.inRender → s.r.renderActive = 0 := by
    intro hb ha
    by_contra hne
    have hone : s.r.renderActive = 1 := by omega
    obtain ⟨j, u, hu, hpc⟩ := h6 hone
    by_cases hji : j = i
    · subst hji
      rw [hi] at hu
      exact ha (Option.some.inj hu ▸ hpc)
    · have := (hother j u hji hu (holdsSlot_of_inRender _ hpc)).2
      rw [holdsSlot_of_inRender _ hb] at this
      exact absurd this (by simp)
  refine ⟨?_, ?_, ?_, ?_, ?_, ?_⟩
  · intro j u hu hh
    rcases getElem?_set_task _ _ _ _ _ hu with ⟨_, rfl⟩ | ⟨hji, hold⟩
    · exact (s1 hh).1
    · obtain ⟨ht, ht'⟩ := hother j u hji hold hh
      show r'.renderingLock = true
      rw [(s2 ht').2 ht]
      exact h1 j u hold hh
  · intro j k u v hu hv hhu hhv
    rcases getElem?_set_task _ _ _ _ _ hu with ⟨rfl, rfl⟩ | ⟨hji, holdu⟩
    · rcases getElem?_set_task _ _ _ _ _ hv with ⟨rfl, _⟩ | ⟨hki, holdv⟩
      · rfl
      · have := (hother k v hki holdv hhv).2
        rw [hhu] at this
        exact absurd this (by simp)
    · rcases getElem?_set_task _ _ _ _ _ hv with ⟨rfl, rfl⟩ | ⟨hki, holdv⟩
      · have := (hother j u hji holdu hhu).2
        rw [hhv] at this
        exact absurd this (by simp)
      · exact h2 j k u v holdu holdv hhu hhv
  · intro hl
    cases ht' : t'.pc.holdsSlot
    · cases ht : t.pc.holdsSlot
      · have hl' : s.r.renderingLock = true := by
          rw [← (s2 ht').2 ht]
          exact hl
        obtain ⟨j, u, hu, hh⟩ := h3 hl'
        have hji : j ≠ i := by
          intro e
          subst e
          rw [hi] at hu
          rw [← Option.some.inj hu, ht] at hh
          exact absurd hh (by simp)
        exact ⟨j, u, getElem?_set_task_other _ _ _ _ _ hji hu, hh⟩
      · have := (s2 ht').1 ht
        rw [this] at hl
        exact absurd hl (by simp)
    · exact ⟨i, t', hself, ht'⟩
  · show r'.renderActive ≤ 1
    by_cases ha : t.pc = PC.inRender <;> by_cases hb : t'.pc = PC.inRender
    · simp only [ha, hb, if_true] at s3
      omega
    · simp only [ha, hb, if_true, if_false] at s3
      have := h5 i t hi ha
      omega
    · have := hzero hb ha
      simp only [ha, hb, if_true, if_false] at s3
      omega
    · simp only [ha, hb, if_false] at s3
      omega
  · intro j u hu hpc
    show r'.renderActive = 1
    rcases getElem?_set_task _ _ _ _ _ hu with ⟨_, rfl⟩ | ⟨hji, hold⟩
    · by_cases ha : t.pc = PC.inRender
      · simp only [ha, hpc, if_true] at s3
        have := h5 i t hi ha
        omega
      · have := hzero hpc ha
        simp only [ha, hpc, if_true, if_false] at s3
        omega
    · obtain ⟨ht, ht'⟩ := hother j u hji hold (holdsSlot_of_inRender _ hpc)
      have ha : t.pc ≠ PC.inRender := by
        intro e
        rw [holdsSlot_of_inRender _ e] at ht
        exact absurd ht (by simp)
      have hb : t'.pc ≠ PC.inRender := by
        intro e
        rw [holdsSlot_of_inRender _ e] at ht'
        exact absurd ht' (by simp)
      simp only [ha, hb, if_false] at s3
      have := h5 j u hold hpc
      omega
  · intro hone
    have hone' : r'.renderActive = 1 := hone
    by_cases hb : t'.pc = PC.inRender
    · exact ⟨i, t', hself, hb⟩
    · by_cases ha : t.pc = PC.inRender
      · simp only [ha, hb, if_true, if_false] at s3
        omega
      · simp only [ha, hb, if_false] at s3
        obtain ⟨j, u, hu, hpc⟩ := h6 (by omega)
        have hji : j ≠ i := by
          intro e
          subst e
          rw [hi] at hu
          exact ha (Option.some.inj hu ▸ hpc)
        exact ⟨j, u, getElem?_set_task_other _ _ _ _ _ hji hu, hpc⟩

theorem slotInv_step (env : Env) (s : System) (i : Nat) (hinv : SlotInv s) :
    SlotInv (step env s i) := by
  unfold step
  split
  · exact hinv
  · split
    · exact hinv
    · rename_i t ht
      exact slotInv_update s i t _ _ hinv ht
        (taskStep_slotStep env s.r t (hinv.1 i t ht) (hinv.2.2.2.2.1 i t ht))

theorem getElem?_append_newTask (l : List Task) (f : Bool) (j : Nat) (u : Task)
    (h : (l ++ [newTask f])[j]? = some u) : l[j]? = some u ∨ u = newTask f := by
  by_cases hj : j < l.length
  · rw [List.getElem?_append_left hj] at h
    exact Or.inl h
  · rw [List.getElem?_append_right (by omega)] at h
    right
    cases hk : j - l.length with
    | zero =>
      rw [hk] at h
      exact (Option.some.inj h).symm
    | succ n =>
      rw [hk] at h
      exact absurd h (by simp)

theorem slotInv_rerenderOpt (f : Bool) (s : System) (hinv : SlotInv s) :
    SlotInv (rerenderOpt f s) := by
  obtain ⟨h1, h2, h3, h4, h5, h6⟩ := hinv
  have hlt : ∀ (j : Nat) (u : Task), s.tasks[j]? = some u → j < s.tasks.length := by
    intro j u hu
    rcases List.getElem?_eq_some.mp hu with ⟨hj, _⟩
    exact hj
  have hold : ∀ (j : Nat) (u : Task), s.tasks[j]? = some u →
      (s.tasks ++ [newTask f])[j]? = some u := by
    intro j u hu
    rw [List.getElem?_append_left (hlt j u hu)]
    exact hu
  refine ⟨?_, ?_, ?_, h4, ?_, ?_⟩
  · intro j u hu hh
    rcases getElem?_append_newTask _ _ _ _ hu with h | h
    · exact h1 j u h hh
    · subst h
      exact absurd hh (by simp [newTask, PC.holdsSlot])
  · intro j k u v hu hv hhu hhv
    rcases getElem?_append_newTask _ _ _ _ hu with hu' | hu'
    · rcases getElem?_append_newTask _ _ _ _ hv with hv' | hv'
      · exact h2 j k u v hu' hv' hhu hhv
      · subst hv'
        exact absurd hhv (by simp [newTask, PC.holdsSlot])
    · subst hu'
      exact absurd hhu (by simp [newTask, PC.holdsSlot])
  · intro hl
    obtain ⟨j, u, hu, hh⟩ := h3 hl
    exact ⟨j, u, hold j u hu, hh⟩
  · intro j u hu hpc
    rcases getElem?_append_newTask _ _ _ _ hu with h | h
    · exact h5 j u h hpc
    · subst h
      exact absurd hpc (by simp [newTask])
  · intro hone
    obtain ⟨j, u, hu, hpc⟩ := h6 hone
    exact ⟨j, u, hold j u hu, hpc⟩

theorem slotInv_init (r : Renderer) : SlotInv (initSystem r) := by
  refine ⟨?_, ?_, ?_, ?_, ?_, ?_⟩ <;> simp [initSystem]

theorem slotInv_exec (env : Env) (s : System) (schedule : List Action) (hinv : SlotInv s) :
    SlotInv (exec env s schedule) := by
  induction schedule generalizing s with
  | nil => exact hinv
  | cons a rest ih =>
    apply ih
    cases a with
    | rerender f => exact slotInv_rerenderOpt f s hinv
    | run i => exact slotInv_step env s i hinv

theorem filter_length_le_one (l : List Task) (p : Task → Bool)
    (h : ∀ (i j : Nat) (ti tj : Task), l[i]? = some ti → l[j]? = some tj →
      p ti = true → p tj = true → i = j) :
    (l.filter p).length ≤ 1 := by
  induction l with
  | nil => simp
  | cons a rest ih =>
    have hrest : (rest.filter p).length ≤ 1 := by
      apply ih
      intro i j ti tj hi hj hpi hpj
      have := h (i + 1) (j + 1) ti tj (by simpa using hi) (by simpa using hj) hpi hpj
      omega
    cases hpa : p a
    · rw [List.filter_cons_of_neg (by simp [hpa])]
      exact hrest
    · have hnone : rest.filter p = [] := by
        rw [List.filter_eq_nil_iff]
        intro u hu hpu
        obtain ⟨k, hk, hku⟩ := List.getElem_of_mem hu
        have hk' : rest[k]? = some u := by
          rw [List.getElem?_eq_getElem hk, hku]
        have := h 0 (k + 1) a u (by simp) (by simpa using hk') hpa hpu
        omega
      rw [List.filter_cons_of_pos (by simp [hpa]), hnone]
      simp

/-- C9. At most one generation holds the rendering slot at any instant. In every state
reached from a renderer whose slot is free by any schedule of rerenderOpt calls and task
steps (try-acquire, cancel then blocking acquire, the steps of a generation, release on
exit): at most one task is between its acquisition of `renderingLock` and its release, and
the lock is held whenever there is one; at most one task is inside the scene's `Render` and
the count of running `Render` calls is at most 1; and a task that was outside the slot and
enters it by its next step does so in a state in which no task holds the slot, so the
`Render` call of a forced rerender starts only after the previous generation released it. -/
theorem rendering_slot_exclusive (env : Env) (r0 : Renderer) (schedule : List Action) :
    ((exec env (initSystem r0) schedule).tasks.filter (fun t => t.pc.holdsSlot)).length ≤ 1 ∧
    (∀ (i j : Nat) (ti tj : Task),
      (exec env (initSystem r0) schedule).tasks[i]? = some ti →
      (exec env (initSystem r0) schedule).tasks[j]? = some tj →
      ti.pc.holdsSlot = true → tj.pc.holdsSlot = true → i = j) ∧
    (∀ (i : Nat) (t : Task), (exec env (initSystem r0) schedule).tasks[i]? = some t →
      t.pc.holdsSlot = true → (exec env (initSystem r0) schedule).r.renderingLock = true) ∧
    ((exec env (initSystem r0) schedule).tasks.filter
      (fun t => decide (t.pc = PC.inRender))).length ≤ 1 ∧
    (exec env (initSystem r0) schedule).r.renderActive ≤ 1 ∧
    (∀ (i : Nat) (t : Task), (exec env (initSystem r0) schedule).tasks[i]? = some t →
      t.pc = PC.inRender → (exec env (initSystem r0) schedule).r.renderActive = 1) ∧
    (∀ (i : Nat) (t t' : Task), (exec env (initSystem r0) schedule).tasks[i]? = some t →
      t.pc.holdsSlot = false →
      (step env (exec env (initSystem r0) schedule) i).tasks[i]? = some t' →
      t'.pc.holdsSlot = true →
      (exec env (initSystem r0) schedule).r.renderingLock = false ∧
      ∀ (j : Nat) (u : Task), (exec env (initSystem r0) schedule).tasks[j]? = some u →
        u.pc.holdsSlot = false) := by
  have hinv := slotInv_exec env (initSystem r0) schedule (slotInv_init r0)
  obtain ⟨h1, h2, h3, h4, h5, h6⟩ := hinv
  refine ⟨filter_length_le_one _ _ h2, h2, h1, ?_, h4, h5, ?_⟩
  · apply filter_length_le_one
    intro i j ti tj hi hj hpi hpj
    exact h2 i j ti tj hi hj (holdsSlot_of_inRender _ (of_decide_eq_true hpi))
      (holdsSlot_of_inRender _ (of_decide_eq_true hpj))
  · intro i t t' ht hout ht' hin
    have hfree : (exec env (initSystem r0) schedule).r.renderingLock = false := by
      unfold step at ht'
      split at ht'
      · rw [ht] at ht'
        rw [← Option.some.inj ht', hout] at hin
        exact absurd hin (by simp)
      · rw [ht] at ht'
        simp only at ht'
        rw [getElem?_set_task_self _ i t _ ht] at ht'
        have hs := taskStep_slotStep env (exec env (initSystem r0) schedule).r t
          (h1 i t ht) (h5 i t ht)
        rw [Option.some.inj ht'] at hs
        rcases (hs.1 hin).2 with h | h
        · rw [hout] at h
          exact absurd h (by simp)
        · exact h
    refine ⟨hfree, ?_⟩
    intro j u hu
    cases hh : u.pc.holdsSlot
    · rfl
    · rw [h1 j u hu hh] at hfree
      exact absurd hfree (by simp)

/-- C5 (counterexample). A rerender requested while `r.cachedRender` is nil is not a
no-op: on a fresh renderer the diagnostic is logged, and after four steps of the task the
call spawned the slot is held, the scene's `Render` has been invoked and a render buffer
has been allocated; after three more steps the cached image is replaced. -/
theorem rerender_too_soon_starts_generation :
    (initSystem rendererFresh).r.cachedRender = none ∧
    (exec envRed (initSystem rendererFresh) (Action.rerender false :: runTask 0 4)).log
      = [tooSoon] ∧
    (exec envRed (initSystem rendererFresh)
      (Action.rerender false :: runTask 0 4)).r.renderingLock = true ∧
    (exec envRed (initSystem rendererFresh)
      (Action.rerender false :: runTask 0 4)).r.renderCalls = 1 ∧
    (exec envRed (initSystem rendererFresh)
      (Action.rerender false :: runTask 0 4)).r.cachedRenderCPU = some (NewRGBA 2 1) ∧
    (exec envRed (initSystem rendererFresh)
      (Action.rerender false :: runTask 0 7)).r.cachedRender
      = some { Pix := [255, 0, 0, 255, 255, 0, 0, 255], Stride := 8, W := 2, H := 1 } := by
  decide

/-- C5 (amended). A rerender requested while `r.cachedRender` is nil logs the diagnostic
and then goes on like any other rerender: the renderer is left as it is, the background
task is spawned, and when the slot is free the first step of that task acquires it and
starts a generation. -/
theorem rerender_too_soon_logs_and_proceeds (env : Env) (forceCancel : Bool) (s : System)
    (hnil : s.r.cachedRender = none) :
    (rerenderOpt forceCancel s).log = s.log ++ [tooSoon] ∧
    (rerenderOpt forceCancel s).r = s.r ∧
    (rerenderOpt forceCancel s).tasks = s.tasks ++ [newTask forceCancel] ∧
    (s.r.renderingLock = false → s.r.panicked = false →
      (step env (rerenderOpt forceCancel s) s.tasks.length).r.renderingLock = true ∧
      (step env (rerenderOpt forceCancel s) s.tasks.length).tasks
        = s.tasks ++ [{ newTask forceCancel with pc := PC.setup }]) := by
  refine ⟨by simp [rerenderOpt, hnil], rfl, rfl, ?_⟩
  intro hl hp
  have hget : (s.tasks ++ [newTask forceCancel])[s.tasks.length]?
      = some (newTask forceCancel) := List.getElem?_concat_length _ _
  simp only [step, rerenderOpt, hp, Bool.false_eq_true, if_false, hget]
  simp [taskStep, newTask, hl]

/-- Witness of C5 (amended): the fresh renderer. -/
theorem rerender_too_soon_logs_and_proceeds_witness :
    (rerenderOpt false (initSystem rendererFresh)).log
      = (initSystem rendererFresh).log ++ [tooSoon] ∧
    (rerenderOpt false (initSystem rendererFresh)).r = (initSystem rendererFresh).r ∧
    (rerenderOpt false (initSystem rendererFresh)).tasks
      = (initSystem rendererFresh).tasks ++ [newTask false] ∧
    ((initSystem rendererFresh).r.renderingLock = false →
      (initSystem rendererFresh).r.panicked = false →
      (step envRed (rerenderOpt false (initSystem rendererFresh))
        (initSystem rendererFresh).tasks.length).r.renderingLock = true ∧
      (step envRed (rerenderOpt false (initSystem rendererFresh))
        (initSystem rendererFresh).tasks.length).tasks
        = (initSystem rendererFresh).tasks ++ [{ newTask false with pc := PC.setup }]) :=
  rerender_too_soon_logs_and_proceeds envRed false (initSystem rendererFresh) rfl

theorem step_done (env : Env) (s : System) (i : Nat) (t : Task)
    (ht : s.tasks[i]? = some t) (hpc : t.pc = PC.done) : step env s i = s := by
  unfold step
  split
  · rfl
  · rw [ht]
    simp only [taskStep, hpc]
    have hset : s.tasks.set i t = s.tasks := by
      apply List.ext_getElem?
      intro j
      by_cases hij : i = j
      · subst hij
        rw [getElem?_set_task_self _ _ _ _ ht, ht]
      · rw [List.getElem?_set_ne hij]
    rw [hset]

theorem exec_runTask_done (env : Env) (s : System) (i : Nat) (t : Task)
    (ht : s.tasks[i]? = some t) (hpc : t.pc = PC.done) (n : Nat) :
    exec env s (runTask i n) = s := by
  induction n with
  | zero => rfl
  | succ k ih =>
    simp only [runTask, List.replicate_succ, exec, List.foldl_cons, act]
    rw [step_done env s i t ht hpc]
    exact ih

/-- C6. A request `rerenderOpt(false, ...)` whose try-acquire fails is dropped. The caller's
part of the call leaves the renderer as it is and spawns the task; when that task, not
being forced, tries the slot while it is held, its step leaves the whole renderer as it
is (the slot stays held and is neither acquired nor released by the task, no cancel
function is called, no context is made, `Render` is not invoked, the render buffer, the
cached image and the cached partial image are the same), nothing is logged, the task ends
having given its callbacks a nil error, and no later step of the task changes anything. -/
theorem dropped_request_changes_nothing (env : Env) (s : System) (i : Nat) (t : Task)
    (ht : s.tasks[i]? = some t) (hpc : t.pc = PC.start) (hf : t.forceCancel = false)
    (herr : t.err = none) (hl : s.r.renderingLock = true) (hp : s.r.panicked = false) :
    (step env s i).r = s.r ∧
    (step env s i).r.renderingLock = true ∧
    (step env s i).r.ctxCancelled = s.r.ctxCancelled ∧
    (step env s i).r.renderingCtxCancel = s.r.renderingCtxCancel ∧
    (step env s i).r.ctxCreated = s.r.ctxCreated ∧
    (step env s i).r.renderCalls = s.r.renderCalls ∧
    (step env s i).r.cachedRenderCPU = s.r.cachedRenderCPU ∧
    (step env s i).r.cachedRender = s.r.cachedRender ∧
    (step env s i).r.cachedPartialRender = s.r.cachedPartialRender ∧
    (step env s i).log = s.log ∧
    (step env s i).tasks = s.tasks.set i { t with pc := PC.done, reported := some none } ∧
    (∀ n, exec env (step env s i) (runTask i n) = step env s i) ∧
    (∀ s0 : System, (rerenderOpt false s0).r = s0.r ∧
      (rerenderOpt false s0).tasks = s0.tasks ++ [newTask false]) := by
  have hstep : step env s i
      = { s with tasks := s.tasks.set i { t with pc := PC.done, reported := some none } } := by
    simp [step, hp, ht, taskStep, hpc, hl, hf, herr]
  have hr : (step env s i).r = s.r := by rw [hstep]
  refine ⟨hr, ?_, ?_, ?_, ?_, ?_, ?_, ?_, ?_, ?_, ?_, ?_, ?_⟩
  · rw [hr]; exact hl
  · rw [hr]
  · rw [hr]
  · rw [hr]
  · rw [hr]
  · rw [hr]
  · rw [hr]
  · rw [hr]
  · rw [hstep]
  · rw [hstep]
  · intro n
    apply exec_runTask_done env (step env s i) i
      { t with pc := PC.done, reported := some none }
    · rw [hstep]
      exact getElem?_set_task_self _ _ _ _ ht
    · rfl
  · intro s0
    exact ⟨rfl, rfl⟩

/-- Witness of C6: the second, unforced request while the first generation holds the slot. -/
theorem dropped_request_changes_nothing_witness :
    (step envRed busySystem 1).r = busySystem.r ∧
    (step envRed busySystem 1).r.renderingLock = true ∧
    (step envRed busySystem 1).r.ctxCancelled = busySystem.r.ctxCancelled ∧
    (step envRed busySystem 1).r.renderingCtxCancel = busySystem.r.renderingCtxCancel ∧
    (step envRed busySystem 1).r.ctxCreated = busySystem.r.ctxCreated ∧
    (step envRed busySystem 1).r.renderCalls = busySystem.r.renderCalls ∧
    (step envRed busySystem 1).r.cachedRenderCPU = busySystem.r.cachedRenderCPU ∧
    (step envRed busySystem 1).r.cachedRender = busySystem.r.cachedRender ∧
    (step envRed busySystem 1).r.cachedPartialRender = busySystem.r.cachedPartialRender ∧
    (step envRed busySystem 1).log = busySystem.log ∧
    (step envRed busySystem 1).tasks
      = busySystem.tasks.set 1 { newTask false with pc := PC.done, reported := some none } ∧
    (∀ n, exec envRed (step envRed busySystem 1) (runTask 1 n) = step envRed busySystem 1) ∧
    (∀ s0 : System, (rerenderOpt false s0).r = s0.r ∧
      (rerenderOpt false s0).tasks = s0.tasks ++ [newTask false]) :=
  dropped_request_changes_nothing envRed busySystem 1 (newTask false) (by decide) rfl rfl rfl
    (by decide) (by decide)

theorem collectorLoop_short (ctxDone : Nat → Bool) (hasSink : Bool) (s : Collector)
    (rs : List JobResult) (h : s.pixelNum + rs.length < pixelBatch) :
    (collectorLoop ctxDone hasSink s rs).err = s.err := by
  induction rs generalizing s with
  | nil => rfl
  | cons a rest ih =>
    simp only [List.length_cons] at h
    simp only [collectorLoop]
    have hmod : ¬ ((s.pixelNum + 1) % pixelBatch = 0) := by
      rw [Nat.mod_eq_of_lt (by omega)]
      omega
    rw [if_neg hmod]
    rw [ih _ (by simp only; omega)]

/-- Whatever the context does, a call of implCommonRender whose traversal order has fewer
than `pixelBatch` entries returns nil: the collector never reaches a check of the
context. -/
theorem implCommonRender_short_returns_nil {V D : Type} (perm : Nat → List Nat)
    (div01 : Nat × Nat → Nat × Nat → V) (genJob : Nat × Nat → V → D)
    (processJob : Nat × Nat → V → D → JobResult) (sched : Sched) (hasSink : Bool)
    (m : Image) (pixelsRand : List Nat)
    (harr : ∀ l, (sched.arrival l).length = l.length)
    (hshort : (updatePixelsRand perm (initAlpha m) pixelsRand).length < pixelBatch) :
    (implCommonRender perm div01 genJob processJob sched hasSink m pixelsRand).err = none := by
  have hlen := jobGenerator_length_le div01 genJob ((initAlpha m).W, (initAlpha m).H)
    sched.genDone 0 (updatePixelsRand perm (initAlpha m) pixelsRand)
  have hloop := collectorLoop_short sched.colDone hasSink
    { FullRender := initAlpha m, pixelNum := 0, err := none,
      locks := [LockEv.lock LockId.cachedRenderLock, LockEv.unlock LockId.cachedRenderLock]
        ++ [LockEv.lock LockId.cachedRenderLock], setCalls := [], sent := [] }
    (sched.arrival ((jobGenerator div01 genJob ((initAlpha m).W, (initAlpha m).H)
      sched.genDone 0 (updatePixelsRand perm (initAlpha m) pixelsRand)).map
        (worker processJob)))
    (by simp only [harr, List.length_map]; omega)
  simp only [implCommonRender, collector]
  split
  · simpa using hloop
  · rename_i h
    exact absurd hloop h

/-- C3 (what the code does). A generation on a `2 x 1` buffer whose context is cancelled
after the generator pushed one of its two jobs: only the pixel `(1, 0)` is written, yet
implCommonRender returns nil, and the task of rerenderOpt goes on to replace
`r.cachedRender` by the buffer in which the pixel `(0, 0)` was never written. -/
theorem cancelled_generation_replaces_cachedRender :
    (cancelledPass (NewRGBA 2 1)).jobs = [(1, 0)] ∧
    (cancelledPass (NewRGBA 2 1)).setCalls = [(1, 0)] ∧
    (cancelledPass (NewRGBA 2 1)).setCalls.length < 2 * 1 ∧
    (cancelledPass (NewRGBA 2 1)).err = none ∧
    (exec envCancelled (initSystem renderer21)
      (Action.rerender true :: runTask 0 7)).r.cachedRender
      = some { Pix := [0, 0, 0, 255, 255, 0, 0, 255], Stride := 8, W := 2, H := 1 } ∧
    (exec envCancelled (initSystem renderer21)
      (Action.rerender true :: runTask 0 8)).tasks.map (fun t => t.reported)
      = [some none] := by
  decide

/-! ## The throttle -/

theorem throttle_upper (T hi : Nat) (hT : 0 < T) (ts : List Nat) (last : Nat)
    (hts : ∀ t ∈ ts, t ≤ hi) (hlast : last ≤ hi) :
    last + (throttle T last ts).length * T ≤ hi := by
  induction ts generalizing last with
  | nil => simpa [throttle] using hlast
  | cons t rest ih =>
    have ht : t ≤ hi := hts t (List.mem_cons_self t rest)
    have hrest : ∀ u ∈ rest, u ≤ hi := fun u hu => hts u (List.mem_cons_of_mem t hu)
    simp only [throttle]
    split
    · exact ih last hrest hlast
    · rename_i hge
      have := ih t hrest ht
      simp only [List.length_cons, Nat.add_mul, Nat.one_mul]
      omega

theorem throttle_lower (T : Nat) (ts : List Nat) (last prev : Nat)
    (hprev : prev < last + T) (hgap : List.Chain (fun a b => b - a < T) prev ts) :
    (prev :: ts).getLast (List.cons_ne_nil prev ts)
      < last + (2 * (throttle T last ts).length + 1) * T := by
  induction ts generalizing last prev with
  | nil => simpa [throttle] using hprev
  | cons t rest ih =>
    rw [List.chain_cons] at hgap
    obtain ⟨hpt, hrest⟩ := hgap
    rw [List.getLast_cons (List.cons_ne_nil t rest)]
    simp only [throttle]
    split
    · rename_i hlt
      exact ih last t (by omega) hrest
    · rename_i hge
      have := ih t t (by omega) hrest
      simp only [List.length_cons]
      have e : (2 * ((throttle T t rest).length + 1) + 1) * T
          = (2 * (throttle T t rest).length + 1) * T + 2 * T := by ring
      rw [e]
      omega

/-- C7 (counterexample). With `T = 3`, `t0 = 0`, `D = 24` and a snapshot every 2 time units
from 2 to 24 (all gaps below `T`, all arrivals within `[t0, t0 + D]`, the last one at
`t0 + D`) the throttle accepts 6 snapshots, while `⌈D/T⌉ - 1 = 7`. -/
theorem throttle_count_below_claimed :
    0 < 3 ∧
    List.Chain (fun a b => b - a < 3) 0 everyTwo ∧
    (∀ t ∈ everyTwo, 0 ≤ t ∧ t ≤ 0 + 24) ∧
    throttle 3 0 everyTwo = [4, 8, 12, 16, 20, 24] ∧
    ceilDiv 24 3 = 8 ∧
    ¬ (ceilDiv 24 3 - 1 ≤ (throttle 3 0 everyTwo).length ∧
       (throttle 3 0 everyTwo).length ≤ ceilDiv 24 3 + 1) := by
  refine ⟨by decide, by simp [everyTwo], by decide, by decide, by decide, by decide⟩

/-- C7 (amended). For every minimum interval `T > 0`, start time `t0`, duration `D` and
stream of snapshot arrival times within `[t0, t0 + D]` whose consecutive gaps (the gap from
`t0` to the first snapshot included) are all smaller than `T`, the number `k` of accepted
publishes satisfies `k * T ≤ D`, hence `k ≤ ⌈D/T⌉ ≤ ⌈D/T⌉ + 1`; and the last arrival time
`L` (`t0` for an empty stream) satisfies `L < t0 + (2k + 1) * T`, which bounds `k` from
below by the time the stream spans, not by `⌈D/T⌉ - 1`. -/
theorem throttle_count_bounds (T t0 D : Nat) (ts : List Nat) (hT : 0 < T)
    (hgap : List.Chain (fun a b => b - a < T) t0 ts)
    (hin : ∀ t ∈ ts, t0 ≤ t ∧ t ≤ t0 + D) :
    (throttle T t0 ts).length * T ≤ D ∧
    (throttle T t0 ts).length ≤ ceilDiv D T ∧
    (throttle T t0 ts).length ≤ ceilDiv D T + 1 ∧
    (t0 :: ts).getLast (List.cons_ne_nil t0 ts)
      < t0 + (2 * (throttle T t0 ts).length + 1) * T := by
  have hup := throttle_upper T (t0 + D) hT ts t0 (fun t ht => (hin t ht).2) (by omega)
  have hk : (throttle T t0 ts).length * T ≤ D := by omega
  have hceil : (throttle T t0 ts).length ≤ ceilDiv D T := by
    unfold ceilDiv
    rw [Nat.le_div_iff_mul_le hT]
    omega
  exact ⟨hk, hceil, by omega, throttle_lower T ts t0 t0 (by omega) hgap⟩

/-- Witness of C7 (amended): the stream of the counterexample. -/
theorem throttle_count_bounds_witness :
    (throttle 3 0 everyTwo).length * 3 ≤ 24 ∧
    (throttle 3 0 everyTwo).length ≤ ceilDiv 24 3 ∧
    (throttle 3 0 everyTwo).length ≤ ceilDiv 24 3 + 1 ∧
    (0 :: everyTwo).getLast (List.cons_ne_nil 0 everyTwo)
      < 0 + (2 * (throttle 3 0 everyTwo).length + 1) * 3 :=
  throttle_count_bounds 3 0 24 everyTwo (by decide) (by simp [everyTwo]) (by decide)

/-! ## The lock order -/

theorem lockOrderOK_append (c : Nat) (a b : List LockEv) :
    lockOrderOK c (a ++ b) = (lockOrderOK c a && lockOrderOK (cachedHeld c a) b) := by
  induction a generalizing c with
  | nil => simp [lockOrderOK, cachedHeld]
  | cons ev rest ih =>
    rcases ev with k | k | k | k <;> cases k <;>
      simp only [List.cons_append, lockOrderOK, cachedHeld, if_true, if_false, reduceCtorEq] <;>
      first
        | exact ih _
        | (split <;> first | exact ih _ | simp)

theorem cachedHeld_append (c : Nat) (a b : List LockEv) :
    cachedHeld c (a ++ b) = cachedHeld (cachedHeld c a) b := by
  induction a generalizing c with
  | nil => rfl
  | cons ev rest ih =>
    cases ev <;> simp only [List.cons_append, cachedHeld] <;> split <;> exact ih _

/-- On operations that only lock and unlock the cached-image lock, the order check passes
and the count of holds follows the replay of the lock. -/
theorem only_cached_ok (t : List LockEv)
    (h : ∀ ev ∈ t, ev = LockEv.lock LockId.cachedRenderLock ∨
      ev = LockEv.unlock LockId.cachedRenderLock) (c : Nat) :
    lockOrderOK c t = true := by
  induction t generalizing c with
  | nil => rfl
  | cons ev rest ih =>
    have hrest := fun e he => h e (List.mem_cons_of_mem ev he)
    rcases h ev (List.mem_cons_self ev rest) with e | e <;> subst e <;>
      simp [lockOrderOK, ih hrest]

theorem only_cached_held (t : List LockEv)
    (h : ∀ ev ∈ t, ev = LockEv.lock LockId.cachedRenderLock ∨
      ev = LockEv.unlock LockId.cachedRenderLock) (held held' : Bool)
    (hrun : mutexRun LockId.cachedRenderLock held t = some held') :
    cachedHeld (if held then 1 else 0) t = if held' then 1 else 0 := by
  induction t generalizing held with
  | nil =>
    simp only [mutexRun, Option.some.injEq] at hrun
    subst hrun
    rfl
  | cons ev rest ih =>
    have hrest := fun e he => h e (List.mem_cons_of_mem ev he)
    rcases h ev (List.mem_cons_self ev rest) with e | e <;> subst e
    · cases held
      · simp only [mutexRun, if_true, Bool.false_eq_true, if_false] at hrun
        simpa [cachedHeld] using ih hrest true hrun
      · simp [mutexRun] at hrun
    · cases held
      · simp [mutexRun] at hrun
      · simp only [mutexRun, if_true] at hrun
        simpa [cachedHeld] using ih hrest false hrun

theorem collectorLoop_only_cached (ctxDone : Nat → Bool) (hasSink : Bool) (s : Collector)
    (rs : List JobResult)
    (h : ∀ ev ∈ s.locks, ev = LockEv.lock LockId.cachedRenderLock ∨
      ev = LockEv.unlock LockId.cachedRenderLock) :
    ∀ ev ∈ (collectorLoop ctxDone hasSink s rs).locks,
      ev = LockEv.lock LockId.cachedRenderLock ∨
      ev = LockEv.unlock LockId.cachedRenderLock := by
  induction rs generalizing s with
  | nil => exact h
  | cons a rest ih =>
    simp only [collectorLoop]
    split
    · split
      · intro ev hev
        simp only [List.mem_append, List.mem_singleton] at hev
        rcases hev with hev | hev
        · exact h ev hev
        · exact Or.inr hev
      · apply ih
        intro ev hev
        have hev' : ev ∈ s.locks ++ [LockEv.unlock LockId.cachedRenderLock]
            ++ [LockEv.lock LockId.cachedRenderLock] := by
          split at hev <;> exact hev
        simp only [List.mem_append, List.mem_singleton] at hev'
        rcases hev' with (hev' | hev') | hev'
        · exact h ev hev'
        · exact Or.inr hev'
        · exact Or.inl hev'
    · exact ih _ h

theorem implCommonRender_only_cached {V D : Type} (perm : Nat → List Nat)
    (div01 : Nat × Nat → Nat × Nat → V) (genJob : Nat × Nat → V → D)
    (processJob : Nat × Nat → V → D → JobResult) (sched : Sched) (hasSink : Bool)
    (m : Image) (pixelsRand : List Nat) :
    ∀ ev ∈ (implCommonRender perm div01 genJob processJob sched hasSink m pixelsRand).locks,
      ev = LockEv.lock LockId.cachedRenderLock ∨
      ev = LockEv.unlock LockId.cachedRenderLock := by
  have hloop := collectorLoop_only_cached sched.colDone hasSink
    { FullRender := initAlpha m, pixelNum := 0, err := none,
      locks := [LockEv.lock LockId.cachedRenderLock, LockEv.unlock LockId.cachedRenderLock]
        ++ [LockEv.lock LockId.cachedRenderLock], setCalls := [], sent := [] }
    (sched.arrival ((jobGenerator div01 genJob ((initAlpha m).W, (initAlpha m).H)
      sched.genDone 0 (updatePixelsRand perm (initAlpha m) pixelsRand)).map
        (worker processJob)))
    (by simp)
  simp only [implCommonRender, collector]
  split
  · intro ev hev
    simp only [List.mem_append, List.mem_singleton] at hev
    rcases hev with hev | hev
    · exact hloop ev hev
    · exact Or.inr hev
  · exact hloop

theorem partialConsumerLocks_ok (fates : List SnapshotFate) :
    lockOrderOK 0 (partialConsumerLocks fates) = true := by
  induction fates with
  | nil => rfl
  | cons f rest ih =>
    cases f
    · exact ih
    · simp only [partialConsumerLocks]
      rw [lockOrderOK_append]
      simp [lockOrderOK, cachedHeld, ih]
    · simp only [partialConsumerLocks]
      rw [lockOrderOK_append]
      simp [lockOrderOK, cachedHeld, ih]

theorem render_locks_ok {V D : Type} (perm : Nat → List Nat)
    (div01 : Nat × Nat → Nat × Nat → V) (genJob : Nat × Nat → V → D)
    (processJob : Nat × Nat → V → D → JobResult) (sched : Sched) (hasSink : Bool)
    (m : Image) (pixelsRand : List Nat) (c : Nat) :
    lockOrderOK c
      (implCommonRender perm div01 genJob processJob sched hasSink m pixelsRand).locks = true ∧
    cachedHeld 0
      (implCommonRender perm div01 genJob processJob sched hasSink m pixelsRand).locks = 0 := by
  have honly := implCommonRender_only_cached perm div01 genJob processJob sched hasSink m
    pixelsRand
  refine ⟨only_cached_ok _ honly c, ?_⟩
  have hrun : mutexRun LockId.cachedRenderLock false
      (implCommonRender perm div01 genJob processJob sched hasSink m pixelsRand).locks
      = some false := by
    simp only [implCommonRender]
    exact collector_lock _ _ _ _ _ rfl
  simpa using only_cached_held _ honly false false hrun

/-- C8. The lock order is never inverted. On the lock operations of every code path of
drawSDF, of the caller's part of rerenderOpt, of its background task (whatever the result of
`TryLock`, the value of `forceCancel`, the outcome of `Render` and of the upload, with
implCommonRender running inside `Render` on any input and under any scheduling), of its
partial-render consumer (whatever happens to each snapshot) and of implCommonRender itself,
the state lock is never acquired, for reading or writing, while the cached-image lock is
held by that path; so wherever both are held the state lock was acquired first. The check
does reject an inverted order. -/
theorem lock_order_never_inverted :
    lockOrderOK 0 drawSDFLocks = true ∧
    lockOrderOK 0 rerenderOptLocks = true ∧
    (∀ fates : List SnapshotFate, lockOrderOK 0 (partialConsumerLocks fates) = true) ∧
    (∀ (V D : Type) (perm : Nat → List Nat) (div01 : Nat × Nat → Nat × Nat → V)
      (genJob : Nat × Nat → V → D) (processJob : Nat × Nat → V → D → JobResult)
      (sched : Sched) (hasSink : Bool) (m : Image) (pixelsRand : List Nat),
      lockOrderOK 0
        (implCommonRender perm div01 genJob processJob sched hasSink m pixelsRand).locks
        = true ∧
      ∀ tryLockOk forceCancel renderFailed uploadFailed : Bool,
        lockOrderOK 0 (rerenderTaskLocks
          { tryLockOk := tryLockOk, forceCancel := forceCancel,
            renderLocks :=
              (implCommonRender perm div01 genJob processJob sched hasSink m pixelsRand).locks,
            renderFailed := renderFailed, uploadFailed := uploadFailed }) = true) ∧
    lockOrderOK 0 [LockEv.lock LockId.cachedRenderLock, LockEv.rlock LockId.implStateLock,
      LockEv.runlock LockId.implStateLock, LockEv.unlock LockId.cachedRenderLock] = false := by
  refine ⟨rfl, rfl, partialConsumerLocks_ok, ?_, rfl⟩
  intro V D perm div01 genJob processJob sched hasSink m pixelsRand
  have hr := render_locks_ok perm div01 genJob processJob sched hasSink m pixelsRand
  refine ⟨(hr 0).1, ?_⟩
  intro tryLockOk forceCancel renderFailed uploadFailed
  cases tryLockOk <;> cases forceCancel <;> cases renderFailed <;> cases uploadFailed <;>
    simp [rerenderTaskLocks, lockOrderOK_append, cachedHeld_append, lockOrderOK, cachedHeld,
      (hr 0).1, (hr 0).2]

end SdfxUI
